import Mathlib

/-!
# Calendar conflict detection (`internal/conflicts/detector.go`)

A shallow embedding of the conflict detector of lark-cli and a verification of
its specification.

Modelling conventions.

* `time.Time` is an instant, counted in nanoseconds as an `Int`.  `Before`, `After`
  and `Equal` compare instants; `Add` adds a duration; `Sub` is the difference
  saturated to the range of `time.Duration`, as in the Go library.
* `time.Duration` and `int` are 64-bit signed integers: products are reduced
  with `wrapInt64`.
* `Duration.Minutes` returns a `float64`; it is modelled exactly, with
  round-to-nearest-even on 53-bit significands (`roundFloat64`).
* `map[string][]string` is a partial function from keys to lists.
* `sort.Slice` is a library routine that is not stable; the detector is
  parameterised by any routine meeting its contract (`SliceSort`): the result is
  a permutation of the input in which no element is `less` than an earlier one.
-/

namespace Conflicts

/-! ## 64-bit arithmetic and the `time` package -/

/-- Largest `int64` (`maxDuration`). -/
def maxInt64 : Int := 9223372036854775807

/-- Smallest `int64` (`minDuration`). -/
def minInt64 : Int := -9223372036854775808

/-- Two's-complement reduction of an integer to the `int64` range. -/
def wrapInt64 (x : Int) : Int := (x + 9223372036854775808) % 18446744073709551616 - 9223372036854775808

/-- The constant `time.Minute`, in nanoseconds. -/
def Minute : Int := 60000000000

/-- The method `Time.Add`. -/
def Time.Add (t d : Int) : Int := t + d

/-- The method `Time.Sub`: the difference, saturated to `minDuration`/`maxDuration`. -/
def Time.Sub (t u : Int) : Int :=
  if t - u > maxInt64 then maxInt64
  else if t - u < minInt64 then minInt64
  else t - u

/-- Helper of `floorLog2`, with fuel. -/
def floorLog2Aux : Nat → Nat → Nat
  | 0, _ => 0
  | fuel + 1, n => if n < 2 then 0 else floorLog2Aux fuel (n / 2) + 1

/-- Position of the leading bit of `n` (0 for `n ≤ 1`). -/
def floorLog2 (n : Nat) : Nat := floorLog2Aux n n

/-- Round the rational `n / d ≥ 0` to the nearest `float64` (ties to even; normal range, no
overflow), returned as a fraction `(numerator, denominator)` whose denominator is a power of
two. With `e = ⌊log2 (n / d)⌋`, the quotient is scaled by `2^(52 - e)`, rounded to an integer
significand, and scaled back; exponents are kept non-negative by the bias `floorLog2 d + 1`. -/
def roundFloat64 (n d : Nat) : Nat × Nat :=
  if n = 0 ∨ d = 0 then (0, 1)
  else
    -- 2^(floorLog2 n - floorLog2 d) ≤ n / d decides between the two candidate exponents
    let up : Bool := decide (d * 2 ^ floorLog2 n ≤ n * 2 ^ floorLog2 d)
    -- biased exponent eB = e + floorLog2 d + 1
    let eB := if up then floorLog2 n + 1 else floorLog2 n
    -- (n / d) / 2^(e - 52) = num / den
    let num := n * 2 ^ (52 + (floorLog2 d + 1))
    let den := d * 2 ^ eB
    let q := num / den
    let r := num % den
    let m := if 2 * r > den ∨ (2 * r = den ∧ q % 2 = 1) then q + 1 else q
    -- m * 2^(e - 52)
    (m * 2 ^ eB, 2 ^ (52 + (floorLog2 d + 1)))

/-- The expression `int(d.Minutes())` for `d ≥ 0`:
`float64(min) + float64(nsec)/(60*1e9)` with `min := d / Minute`,
`nsec := d % Minute`, each operation rounded to `float64`, then truncated. -/
def minutesNat (d : Nat) : Nat :=
  let min := d / 60000000000
  let nsec := d % 60000000000
  let q := roundFloat64 nsec 60000000000
  let s := roundFloat64 (min * q.2 + q.1) q.2
  s.1 / s.2

/-- The expression `int(d.Minutes())` for a duration `d`; the `float64` operations are
symmetric in the sign. -/
def Duration.Minutes (d : Int) : Int :=
  if d < 0 then -((minutesNat d.natAbs : Nat) : Int) else ((minutesNat d.natAbs : Nat) : Int)

/-! ## Data model -/

/-- The struct `EventTimeSlot`. -/
structure EventTimeSlot where
  ID : String
  Start : Int
  End : Int
  AllDay : Bool
  deriving DecidableEq, Repr

/-- The struct `Options`. -/
structure Options where
  BufferMinutes : Int
  deriving DecidableEq, Repr

/-- The struct `api.Conflict`, with the fields the detector sets; unset `int` fields are zero. -/
structure Conflict where
  Type_ : String
  EventIDs : List String
  OverlapMinutes : Int
  GapMinutes : Int
  RequiredBufferMinutes : Int
  deriving DecidableEq, Repr

/-- The type `map[string][]string`. -/
abbrev ConflictMap := String → Option (List String)

/-- The struct `Result`. -/
structure Result where
  ConflictMap : ConflictMap
  Conflicts : List Conflict
  HasConflicts : Bool

/-- The value of `m[k]` for a map of slices: `nil` when the key is absent. -/
def ConflictMap.get (m : ConflictMap) (k : String) : List String := (m k).getD []

/-- The assignment `m[k] = v`. -/
def ConflictMap.set (m : ConflictMap) (k : String) (v : List String) : ConflictMap :=
  fun x => if x = k then some v else m x

/-- The function `addToConflictMap`. -/
def addToConflictMap (m : ConflictMap) (a b : String) : ConflictMap :=
  let m1 := m.set a (m.get a ++ [b])
  m1.set b (m1.get b ++ [a])

/-! ## Sorting -/

/-- The `less` closure handed to `sort.Slice`: by start, ties by end. -/
def slotLess (x y : EventTimeSlot) : Prop :=
  if x.Start = y.Start then x.End < y.End else x.Start < y.Start

instance slotLess.instDecidable (x y : EventTimeSlot) : Decidable (slotLess x y) := by
  unfold slotLess; infer_instance

/-- The contract of `sort.Slice` for the closure `slotLess`: the slice is
rearranged (a permutation) so that no element is less than an earlier one; the
order of elements that compare equal is not specified. -/
structure SliceSort where
  run : List EventTimeSlot → List EventTimeSlot
  perm : ∀ l, (run l).Perm l
  sorted : ∀ l, (run l).Pairwise (fun x y => ¬ slotLess y x)

/-! ## The detector -/

/-- The local `bufferDuration := time.Duration(opts.BufferMinutes) * time.Minute`. -/
def bufferDuration (opts : Options) : Int := wrapInt64 (opts.BufferMinutes * Minute)

/-- The record appended in the overlap branch. -/
def overlapConflict (a b : EventTimeSlot) : Conflict :=
  let overlapStart := if b.Start > a.Start then b.Start else a.Start
  let overlapEnd := if b.End < a.End then b.End else a.End
  let overlapMinutes := Duration.Minutes (Time.Sub overlapEnd overlapStart)
  { Type_ := "overlap", EventIDs := [a.ID, b.ID], OverlapMinutes := overlapMinutes,
    GapMinutes := 0, RequiredBufferMinutes := 0 }

/-- The record appended in the buffer branch. -/
def bufferConflict (opts : Options) (a b : EventTimeSlot) : Conflict :=
  let gap := Time.Sub b.Start a.End
  { Type_ := "insufficient_buffer", EventIDs := [a.ID, b.ID], OverlapMinutes := 0,
    GapMinutes := Duration.Minutes gap, RequiredBufferMinutes := opts.BufferMinutes }

/-- Append a record and index it in the map: the two statements that end each emitting branch. -/
def Result.emit (r : Result) (c : Conflict) (a b : EventTimeSlot) : Result :=
  { r with Conflicts := r.Conflicts ++ [c], ConflictMap := addToConflictMap r.ConflictMap a.ID b.ID }

/-- The inner loop `for j := i + 1; j < len(slots); j++` for a fixed `a = slots[i]`,
over the slots after position `i`. -/
def innerLoop (opts : Options) (a : EventTimeSlot) : List EventTimeSlot → Result → Result
  | [], result => result
  | b :: rest, result =>
    if b.Start > Time.Add a.End (bufferDuration opts) ∨ b.Start = Time.Add a.End (bufferDuration opts) then
      result
    else if a.Start < b.End ∧ b.Start < a.End then
      innerLoop opts a rest (result.emit (overlapConflict a b) a b)
    else if opts.BufferMinutes > 0 then
      if Time.Sub b.Start a.End ≥ 0 ∧ Time.Sub b.Start a.End < bufferDuration opts then
        innerLoop opts a rest (result.emit (bufferConflict opts a b) a b)
      else innerLoop opts a rest result
    else innerLoop opts a rest result

/-- The outer loop `for i := 0; i < len(slots); i++`. -/
def outerLoop (opts : Options) : List EventTimeSlot → Result → Result
  | [], result => result
  | a :: rest, result => outerLoop opts rest (innerLoop opts a rest result)

/-- The function `Detect`. -/
def Detect (srt : SliceSort) (slots : List EventTimeSlot) (opts : Options) : Result :=
  let result : Result := { ConflictMap := fun _ => none, Conflicts := [], HasConflicts := false }
  if slots.length < 2 then result
  else
    let result := outerLoop opts (srt.run slots) result
    { result with HasConflicts := decide (result.Conflicts.length > 0) }

/-- The caller's slice after `Detect` returns: `sort.Slice` sorts it in place. -/
def slotsAfterDetect (srt : SliceSort) (slots : List EventTimeSlot) : List EventTimeSlot :=
  if slots.length < 2 then slots else srt.run slots

/-! ## A sorting routine meeting the contract

Insertion sort, which `sort.Slice` itself runs on slices of at most 12 elements. -/

/-- The order `x` may precede `y` in a sorted slice: `y` is not less than `x`. -/
def slotLE (x y : EventTimeSlot) : Prop := ¬ slotLess y x

instance slotLE.instDecidable (x y : EventTimeSlot) : Decidable (slotLE x y) := by
  unfold slotLE; infer_instance

instance slotLE.instIsTotal : IsTotal EventTimeSlot slotLE :=
  ⟨fun x y => by unfold slotLE slotLess; split_ifs <;> omega⟩

instance slotLE.instIsTrans : IsTrans EventTimeSlot slotLE :=
  ⟨fun x y z h₁ h₂ => by unfold slotLE slotLess at *; split_ifs at * <;> omega⟩

/-- Insertion sort by `slotLess`, as a `SliceSort`. -/
def insertionSliceSort : SliceSort where
  run := List.insertionSort slotLE
  perm := List.perm_insertionSort slotLE
  sorted := List.sorted_insertionSort slotLE

/-! ## The emissions of the sweep

The same two loops, recording for each appended record the two slots compared. -/

/-- One emission of the sweep: the slots `a = slots[i]`, `b = slots[j]` and the record appended. -/
structure Emission where
  first : EventTimeSlot
  second : EventTimeSlot
  record : Conflict

/-- The emissions of the inner loop for a fixed `a`, in order. -/
def innerTrace (opts : Options) (a : EventTimeSlot) : List EventTimeSlot → List Emission
  | [] => []
  | b :: rest =>
    if b.Start > Time.Add a.End (bufferDuration opts) ∨ b.Start = Time.Add a.End (bufferDuration opts) then
      []
    else if a.Start < b.End ∧ b.Start < a.End then
      ⟨a, b, overlapConflict a b⟩ :: innerTrace opts a rest
    else if opts.BufferMinutes > 0 then
      if Time.Sub b.Start a.End ≥ 0 ∧ Time.Sub b.Start a.End < bufferDuration opts then
        ⟨a, b, bufferConflict opts a b⟩ :: innerTrace opts a rest
      else innerTrace opts a rest
    else innerTrace opts a rest

/-- The emissions of the outer loop, in order. -/
def outerTrace (opts : Options) : List EventTimeSlot → List Emission
  | [] => []
  | a :: rest => innerTrace opts a rest ++ outerTrace opts rest

/-- The emissions of `Detect`, in order. -/
def detectTrace (srt : SliceSort) (slots : List EventTimeSlot) (opts : Options) : List Emission :=
  if slots.length < 2 then [] else outerTrace opts (srt.run slots)

/-- Replaying emissions on a result. -/
def replay (es : List Emission) (r : Result) : Result :=
  es.foldl (fun r e => r.emit e.record e.first e.second) r

/-- What the loop body decides for the pair `(a, b)`, the `break` counted as no record. -/
def pairResult (opts : Options) (a b : EventTimeSlot) : Option Conflict :=
  if b.Start > Time.Add a.End (bufferDuration opts) ∨ b.Start = Time.Add a.End (bufferDuration opts) then
    none
  else if a.Start < b.End ∧ b.Start < a.End then some (overlapConflict a b)
  else if opts.BufferMinutes > 0 then
    if Time.Sub b.Start a.End ≥ 0 ∧ Time.Sub b.Start a.End < bufferDuration opts then
      some (bufferConflict opts a b)
    else none
  else none

/-- The record `c` names the two IDs `x`, `y`, in either order. -/
def Conflict.names (c : Conflict) (x y : String) : Prop :=
  c.EventIDs = [x, y] ∨ c.EventIDs = [y, x]

instance Conflict.names.instDecidable (c : Conflict) (x y : String) : Decidable (c.names x y) := by
  unfold Conflict.names; infer_instance

/-- Two records agree up to the order of their two IDs: same type, same unordered pair of
IDs, same minute fields. -/
def Conflict.sameUpToOrder (c d : Conflict) : Prop :=
  c.Type_ = d.Type_ ∧ (c.EventIDs = d.EventIDs ∨ c.EventIDs = d.EventIDs.reverse) ∧
    c.OverlapMinutes = d.OverlapMinutes ∧ c.GapMinutes = d.GapMinutes ∧
    c.RequiredBufferMinutes = d.RequiredBufferMinutes

instance Conflict.sameUpToOrder.instDecidable (c d : Conflict) :
    Decidable (c.sameUpToOrder d) := by
  unfold Conflict.sameUpToOrder; infer_instance

/-! ## Concrete inputs -/

/-- The instant `h:m` of a reference day, in nanoseconds after midnight. -/
def clock (h m : Int) : Int := (h * 60 + m) * Minute

/-- The slot 09:00–10:00 with ID `A`. -/
def slotA : EventTimeSlot := ⟨"A", clock 9 0, clock 10 0, false⟩

/-- The slot 09:30–10:30 with ID `B`. -/
def slotB0930 : EventTimeSlot := ⟨"B", clock 9 30, clock 10 30, false⟩

/-- The slot 10:00–11:00 with ID `B`. -/
def slotB1000 : EventTimeSlot := ⟨"B", clock 10 0, clock 11 0, false⟩

/-- The slot 10:10–11:00 with ID `B`. -/
def slotB1010 : EventTimeSlot := ⟨"B", clock 10 10, clock 11 0, false⟩

/-- The slot 10:20–11:00 with ID `B`. -/
def slotB1020 : EventTimeSlot := ⟨"B", clock 10 20, clock 11 0, false⟩

/-! ## The sweep without pruning -/

/-- The inner loop of the plain pairwise comparison of the specification: the overlap and
buffer tests of `innerLoop` applied to every later slot, without the early-exit `break`. -/
def plainInnerLoop (opts : Options) (a : EventTimeSlot) : List EventTimeSlot → Result → Result
  | [], result => result
  | b :: rest, result =>
    if a.Start < b.End ∧ b.Start < a.End then
      plainInnerLoop opts a rest (result.emit (overlapConflict a b) a b)
    else if opts.BufferMinutes > 0 then
      if Time.Sub b.Start a.End ≥ 0 ∧ Time.Sub b.Start a.End < bufferDuration opts then
        plainInnerLoop opts a rest (result.emit (bufferConflict opts a b) a b)
      else plainInnerLoop opts a rest result
    else plainInnerLoop opts a rest result

/-- The outer loop of the plain pairwise comparison. -/
def plainOuterLoop (opts : Options) : List EventTimeSlot → Result → Result
  | [], result => result
  | a :: rest, result => plainOuterLoop opts rest (plainInnerLoop opts a rest result)

/-- The plain pairwise detector of the specification: same guard, same sort, every pair
`i < j` tested. -/
def DetectPlain (srt : SliceSort) (slots : List EventTimeSlot) (opts : Options) : Result :=
  let result : Result := { ConflictMap := fun _ => none, Conflicts := [], HasConflicts := false }
  if slots.length < 2 then result
  else
    let result := plainOuterLoop opts (srt.run slots) result
    { result with HasConflicts := decide (result.Conflicts.length > 0) }

/-! ## Events: parsing and annotation -/

/-- The struct `api.OutputEvent`, with the fields this package reads or writes. -/
structure OutputEvent where
  ID : String
  Start : String
  End : String
  AllDay : Bool
  ConflictsWith : List String
  deriving DecidableEq, Repr

/-- The two parsing functions of the `time` package the normalizer calls, with locations
`Loc` and errors `Err`: `ParseInLocation layout value loc` and `Parse layout value`, each
returning an instant or an error. -/
structure TimePackage (Loc Err : Type) where
  ParseInLocation : String → String → Loc → Except Err Int
  Parse : String → String → Except Err Int

/-- The constant `time.RFC3339`. -/
def RFC3339 : String := "2006-01-02T15:04:05Z07:00"

/-- The method `Time.In`: the same instant, shown in another location. -/
def Time.In {Loc : Type} (t : Int) (_loc : Loc) : Int := t

/-- The loop of `ParseEventTimes` over the remaining events, `slots` being the slots
appended so far. The result is the pair the function returns: the slice (`none` for `nil`)
and the error (`none` for `nil`). -/
def parseLoop {Loc Err : Type} (tp : TimePackage Loc Err) (loc : Loc) :
    List OutputEvent → List EventTimeSlot → Option (List EventTimeSlot) × Option Err
  | [], slots => (some slots, none)
  | e :: rest, slots =>
    if e.AllDay then
      match tp.ParseInLocation "2006-01-02" e.Start loc with
      | .error err => (none, some err)
      | .ok start =>
        match tp.ParseInLocation "2006-01-02" e.End loc with
        | .error err => (none, some err)
        | .ok end_ =>
          parseLoop tp loc rest
            (slots ++ [{ ID := e.ID, AllDay := e.AllDay, Start := start, End := end_ }])
    else
      match tp.Parse RFC3339 e.Start with
      | .error err => (none, some err)
      | .ok start =>
        match tp.Parse RFC3339 e.End with
        | .error err => (none, some err)
        | .ok end_ =>
          parseLoop tp loc rest
            (slots ++ [{ ID := e.ID, AllDay := e.AllDay, Start := Time.In start loc,
                         End := Time.In end_ loc }])

/-- The function `ParseEventTimes`. -/
def ParseEventTimes {Loc Err : Type} (tp : TimePackage Loc Err) (events : List OutputEvent)
    (loc : Loc) : Option (List EventTimeSlot) × Option Err :=
  parseLoop tp loc events []

/-- The error, if any, of parsing the start and then the end of one event in the format its
all-day flag selects: the calendar date `2006-01-02` for all-day events, RFC3339 otherwise. -/
def eventError {Loc Err : Type} (tp : TimePackage Loc Err) (loc : Loc) (e : OutputEvent) :
    Option Err :=
  if e.AllDay then
    match tp.ParseInLocation "2006-01-02" e.Start loc with
    | .error err => some err
    | .ok _ =>
      match tp.ParseInLocation "2006-01-02" e.End loc with
      | .error err => some err
      | .ok _ => none
  else
    match tp.Parse RFC3339 e.Start with
    | .error err => some err
    | .ok _ =>
      match tp.Parse RFC3339 e.End with
      | .error err => some err
      | .ok _ => none

/-- The function `ApplyToEvents`; the result is the caller's slice after the call. -/
def ApplyToEvents : List OutputEvent → Result → List OutputEvent
  | [], _ => []
  | e :: rest, result =>
    (match result.ConflictMap e.ID with
      | some conflicts => { e with ConflictsWith := conflicts }
      | none => e) :: ApplyToEvents rest result

/-- A small time package for concrete runs: it knows two dates and three timestamps and
rejects every other string with an error. -/
def tableTime : TimePackage Unit String where
  ParseInLocation := fun _ value _ =>
    if value = "2024-05-01" then .ok 0
    else if value = "2024-05-02" then .ok (1440 * Minute)
    else .error ("parse " ++ value)
  Parse := fun _ value =>
    if value = "2024-05-01T09:00:00Z" then .ok (clock 9 0)
    else if value = "2024-05-01T10:00:00Z" then .ok (clock 10 0)
    else if value = "2024-05-01T11:00:00Z" then .ok (clock 11 0)
    else .error ("parse " ++ value)

/-- A timed event 09:00–10:00 with ID `e1`, not annotated. -/
def eventTimed : OutputEvent :=
  ⟨"e1", "2024-05-01T09:00:00Z", "2024-05-01T10:00:00Z", false, []⟩

/-- An all-day event of 1 May 2024 with ID `e2`, not annotated. -/
def eventAllDay : OutputEvent := ⟨"e2", "2024-05-01", "2024-05-02", true, []⟩

/-- A timed event whose end is not a timestamp, with ID `e3`. -/
def eventBadEnd : OutputEvent := ⟨"e3", "2024-05-01T10:00:00Z", "soon", false, []⟩

/-- The event with ID `A`, not annotated. -/
def eventA : OutputEvent := ⟨"A", "2024-05-01T09:00:00Z", "2024-05-01T10:00:00Z", false, []⟩

/-- The signed length of the intersection window of two slots:
`min(a.End, b.End) - max(a.Start, b.Start)`. -/
def intersection (a b : EventTimeSlot) : Int := min a.End b.End - max a.Start b.Start

/-- A slot of 262145 minutes (about 182 days) from instant 0, with ID `A`. -/
def slotLongA : EventTimeSlot := ⟨"A", 0, 262145 * Minute, false⟩

/-- A slot from one nanosecond after instant 0 to minute 262146, with ID `B`. -/
def slotLongB : EventTimeSlot := ⟨"B", 1, 262146 * Minute, false⟩

/-- A slot of 10^19 ns (about 317 years) from instant 0, with ID `A`. -/
def slotCenturiesA : EventTimeSlot := ⟨"A", 0, 10000000000000000000, false⟩

/-- A slot from instant 0 to one minute after 10^19 ns, with ID `B`. -/
def slotCenturiesB : EventTimeSlot := ⟨"B", 0, 10000000000000000000 + Minute, false⟩

/-- The first minute after instant 0, with ID `A`. -/
def slotGapA : EventTimeSlot := ⟨"A", 0, Minute, false⟩

/-- A slot starting 262144 minutes and 59.999999999 seconds after `slotGapA` ends, with
ID `B`. -/
def slotGapB : EventTimeSlot :=
  ⟨"B", Minute + (262144 * Minute + 59999999999), 262147 * Minute, false⟩

/-! ## Positions of the emissions -/

/-- The emissions of the inner loop for `a = slots[i]`, each with the positions `(i, j)` of
the two slots in the sorted slice; `j` is the position of the head of the remaining slots. -/
def innerTraceAt (opts : Options) (a : EventTimeSlot) (i : Nat) :
    Nat → List EventTimeSlot → List (Nat × Nat × Conflict)
  | _, [] => []
  | j, b :: rest =>
    if b.Start > Time.Add a.End (bufferDuration opts) ∨ b.Start = Time.Add a.End (bufferDuration opts) then
      []
    else if a.Start < b.End ∧ b.Start < a.End then
      (i, j, overlapConflict a b) :: innerTraceAt opts a i (j + 1) rest
    else if opts.BufferMinutes > 0 then
      if Time.Sub b.Start a.End ≥ 0 ∧ Time.Sub b.Start a.End < bufferDuration opts then
        (i, j, bufferConflict opts a b) :: innerTraceAt opts a i (j + 1) rest
      else innerTraceAt opts a i (j + 1) rest
    else innerTraceAt opts a i (j + 1) rest

/-- The emissions of the outer loop with their positions; `i` is the position of the head of
the remaining slots. -/
def outerTraceAt (opts : Options) : Nat → List EventTimeSlot → List (Nat × Nat × Conflict)
  | _, [] => []
  | i, a :: rest => innerTraceAt opts a i (i + 1) rest ++ outerTraceAt opts (i + 1) rest

/-- The emissions of `Detect` with the sorted positions of the two slots, in order. -/
def detectTraceAt (srt : SliceSort) (slots : List EventTimeSlot) (opts : Options) :
    List (Nat × Nat × Conflict) :=
  if slots.length < 2 then [] else outerTraceAt opts 0 (srt.run slots)

/-! ## More routines and inputs -/

/-- Another sorting routine meeting the contract of `sort.Slice`: insertion sort run on the
reversed slice, which leaves slots that compare equal in the reverse of their input order. -/
def reverseTieSort : SliceSort where
  run := fun l => List.insertionSort slotLE l.reverse
  perm := fun l => (List.perm_insertionSort slotLE l.reverse).trans (List.reverse_perm l)
  sorted := fun l => List.sorted_insertionSort slotLE l.reverse

/-- The loop of `ApplyToEvents` on the whole state it can reach: the events already visited,
the events still to visit, and the result passed in. -/
def applyLoop : List OutputEvent → List OutputEvent → Result → List OutputEvent × Result
  | done, [], result => (done, result)
  | done, e :: rest, result =>
    match result.ConflictMap e.ID with
    | some conflicts => applyLoop (done ++ [{ e with ConflictsWith := conflicts }]) rest result
    | none => applyLoop (done ++ [e]) rest result

/-- A timed event whose end, 09:00, is before its start, 10:00, with ID `e4`. -/
def eventReversed : OutputEvent :=
  ⟨"e4", "2024-05-01T10:00:00Z", "2024-05-01T09:00:00Z", false, []⟩

/-- The zero-length slot at 09:30, with ID `Z`. -/
def slotInstant : EventTimeSlot := ⟨"Z", clock 9 30, clock 9 30, false⟩

/-- A slot from instant 0 to minute 262146, with ID `A`. -/
def slotOuterA : EventTimeSlot := ⟨"A", 0, 262146 * Minute, false⟩

/-- A slot from one nanosecond after instant 0 to minute 262145, with ID `B`; it lasts
262144 minutes and 59.999999999 seconds. -/
def slotInnerB : EventTimeSlot := ⟨"B", 1, 262145 * Minute, false⟩

/-- The one-hour slot starting at hour `h`, with the given ID. -/
def hourSlot (id : String) (h : Int) : EventTimeSlot := ⟨id, clock h 0, clock (h + 1) 0, false⟩

/-- Thirteen one-hour slots, starting at the hours 1, 1, 5, 5, 5, 5, 3, 5, 5, 5, 5, 5, 0;
the first two, `s0` and `s1`, have the same start and end. -/
def tiedSlots : List EventTimeSlot :=
  [hourSlot "s0" 1, hourSlot "s1" 1, hourSlot "s2" 5, hourSlot "s3" 5, hourSlot "s4" 5,
   hourSlot "s5" 5, hourSlot "s6" 3, hourSlot "s7" 5, hourSlot "s8" 5, hourSlot "s9" 5,
   hourSlot "s10" 5, hourSlot "s11" 5, hourSlot "s12" 0]

/-- The record for 09:00–10:00 and 10:00–11:00 with buffer 15. -/
def recordTouching : Conflict := ⟨"insufficient_buffer", ["A", "B"], 0, 0, 15⟩

/-! ## The loops and their emissions -/

theorem innerLoop_eq_replay (opts : Options) (a : EventTimeSlot) (rest : List EventTimeSlot)
    (r : Result) : innerLoop opts a rest r = replay (innerTrace opts a rest) r := by
  induction rest generalizing r with
  | nil => rfl
  | cons b rest ih =>
    simp only [innerLoop, innerTrace]
    split_ifs <;> simp [replay, ih]

theorem replay_append (es fs : List Emission) (r : Result) :
    replay (es ++ fs) r = replay fs (replay es r) := by
  simp [replay, List.foldl_append]

theorem outerLoop_eq_replay (opts : Options) (l : List EventTimeSlot) (r : Result) :
    outerLoop opts l r = replay (outerTrace opts l) r := by
  induction l generalizing r with
  | nil => rfl
  | cons a rest ih =>
    simp only [outerLoop, outerTrace, replay_append, ih, innerLoop_eq_replay]

theorem replay_Conflicts (es : List Emission) (r : Result) :
    (replay es r).Conflicts = r.Conflicts ++ es.map Emission.record := by
  induction es generalizing r with
  | nil => simp [replay]
  | cons e es ih =>
    have := ih (r.emit e.record e.first e.second)
    simp only [replay, List.foldl_cons] at this ⊢
    rw [this]
    simp [Result.emit]

theorem Detect_Conflicts (srt : SliceSort) (slots : List EventTimeSlot) (opts : Options) :
    (Detect srt slots opts).Conflicts = (detectTrace srt slots opts).map Emission.record := by
  unfold Detect detectTrace
  split_ifs
  · rfl
  · simp [outerLoop_eq_replay, replay_Conflicts]

/-! ## Which pairs are emitted -/

theorem pairResult_ids {opts : Options} {a b : EventTimeSlot} {c : Conflict}
    (h : pairResult opts a b = some c) : c.EventIDs = [a.ID, b.ID] := by
  unfold pairResult at h
  split_ifs at h <;> simp at h <;> subst h <;> rfl

theorem mem_innerTrace {opts : Options} {a : EventTimeSlot} {rest : List EventTimeSlot}
    {e : Emission} (h : e ∈ innerTrace opts a rest) :
    e.first = a ∧ e.second ∈ rest ∧ pairResult opts a e.second = some e.record := by
  induction rest with
  | nil => simp [innerTrace] at h
  | cons b rest ih =>
    simp only [innerTrace] at h
    split_ifs at h with h1 h2 h3 h4
    · simp at h
    · rcases List.mem_cons.1 h with rfl | h
      · simp [pairResult, h1, h2]
      · obtain ⟨ha, hb, hc⟩ := ih h
        exact ⟨ha, List.mem_cons_of_mem _ hb, hc⟩
    · rcases List.mem_cons.1 h with rfl | h
      · simp [pairResult, h1, h2, h3, h4]
      · obtain ⟨ha, hb, hc⟩ := ih h
        exact ⟨ha, List.mem_cons_of_mem _ hb, hc⟩
    · obtain ⟨ha, hb, hc⟩ := ih h
      exact ⟨ha, List.mem_cons_of_mem _ hb, hc⟩
    · obtain ⟨ha, hb, hc⟩ := ih h
      exact ⟨ha, List.mem_cons_of_mem _ hb, hc⟩

theorem mem_outerTrace {opts : Options} {l : List EventTimeSlot} {e : Emission}
    (h : e ∈ outerTrace opts l) :
    List.Sublist [e.first, e.second] l ∧ pairResult opts e.first e.second = some e.record := by
  induction l with
  | nil => simp [outerTrace] at h
  | cons a rest ih =>
    simp only [outerTrace, List.mem_append] at h
    rcases h with h | h
    · obtain ⟨ha, hb, hc⟩ := mem_innerTrace h
      refine ⟨?_, ha ▸ hc⟩
      rw [ha]
      exact List.Sublist.cons₂ a (List.singleton_sublist.2 hb)
    · obtain ⟨hs, hc⟩ := ih h
      exact ⟨List.Sublist.cons a hs, hc⟩

theorem innerTrace_complete {opts : Options} {a : EventTimeSlot} {rest : List EventTimeSlot}
    (hs : rest.Pairwise (fun x y => x.Start ≤ y.Start)) {b : EventTimeSlot} {c : Conflict}
    (hb : b ∈ rest) (h : pairResult opts a b = some c) :
    (⟨a, b, c⟩ : Emission) ∈ innerTrace opts a rest := by
  induction rest with
  | nil => simp at hb
  | cons b' rest ih =>
    rw [List.pairwise_cons] at hs
    have hnb : ¬ (b.Start > Time.Add a.End (bufferDuration opts) ∨
        b.Start = Time.Add a.End (bufferDuration opts)) := by
      intro hbr
      simp [pairResult, hbr] at h
    rcases List.mem_cons.1 hb with rfl | hb
    · simp only [innerTrace]
      unfold pairResult at h
      split_ifs at h with h1 h2 h3 <;> simp at h <;> subst h <;> simp [*]
    · have hle := hs.1 b hb
      have hnb' : ¬ (b'.Start > Time.Add a.End (bufferDuration opts) ∨
          b'.Start = Time.Add a.End (bufferDuration opts)) := by
        intro hbr
        apply hnb
        omega
      have := ih hs.2 hb
      simp only [innerTrace, if_neg hnb']
      split_ifs <;> simp [this]

theorem slotLE_start {x y : EventTimeSlot} (h : ¬ slotLess y x) : x.Start ≤ y.Start := by
  unfold slotLess at h
  split_ifs at h <;> omega

theorem outerTrace_complete {opts : Options} {l : List EventTimeSlot}
    (hs : l.Pairwise (fun x y => ¬ slotLess y x)) {a b : EventTimeSlot} {c : Conflict}
    (hab : List.Sublist [a, b] l) (h : pairResult opts a b = some c) :
    (⟨a, b, c⟩ : Emission) ∈ outerTrace opts l := by
  induction l with
  | nil => simp at hab
  | cons x rest ih =>
    rw [List.pairwise_cons] at hs
    simp only [outerTrace, List.mem_append]
    cases hab with
    | cons _ hab => exact Or.inr (ih hs.2 hab)
    | cons₂ _ hab =>
      left
      refine innerTrace_complete ?_ (List.singleton_sublist.1 hab) h
      exact hs.2.imp (fun hxy => slotLE_start hxy)

theorem pairResult_cases {opts : Options} {a b : EventTimeSlot} {c : Conflict}
    (h : pairResult opts a b = some c) :
    ¬ (b.Start > Time.Add a.End (bufferDuration opts) ∨
        b.Start = Time.Add a.End (bufferDuration opts)) ∧
    (((a.Start < b.End ∧ b.Start < a.End) ∧ c = overlapConflict a b) ∨
      (¬ (a.Start < b.End ∧ b.Start < a.End) ∧ opts.BufferMinutes > 0 ∧
        (Time.Sub b.Start a.End ≥ 0 ∧ Time.Sub b.Start a.End < bufferDuration opts) ∧
        c = bufferConflict opts a b)) := by
  unfold pairResult at h
  split_ifs at h with h1 h2 h3 h4 <;> simp at h
  · exact ⟨h1, Or.inl ⟨h2, h.symm⟩⟩
  · exact ⟨h1, Or.inr ⟨h2, h3, h4, h.symm⟩⟩

theorem pairResult_overlap {opts : Options} {a b : EventTimeSlot} {c : Conflict}
    (h : pairResult opts a b = some c) (ht : c.Type_ = "overlap") :
    a.Start < b.End ∧ b.Start < a.End := by
  obtain ⟨_, ⟨ho, _⟩ | ⟨_, _, _, hc⟩⟩ := pairResult_cases h
  · exact ho
  · subst hc
    simp [bufferConflict] at ht

theorem pairResult_buffer {opts : Options} {a b : EventTimeSlot} {c : Conflict}
    (h : pairResult opts a b = some c) (ht : c.Type_ = "insufficient_buffer") :
    ¬ (a.Start < b.End ∧ b.Start < a.End) ∧ opts.BufferMinutes > 0 ∧
      Time.Sub b.Start a.End ≥ 0 ∧ Time.Sub b.Start a.End < bufferDuration opts := by
  obtain ⟨_, ⟨_, hc⟩ | ⟨hno, hb, hg, _⟩⟩ := pairResult_cases h
  · subst hc
    simp [overlapConflict] at ht
  · exact ⟨hno, hb, hg.1, hg.2⟩

/-! ## Pairs of slots of a list -/

theorem pair_sublist_or {α : Type} {l : List α} {x y : α} (hx : x ∈ l) (hy : y ∈ l)
    (hxy : x ≠ y) : List.Sublist [x, y] l ∨ List.Sublist [y, x] l := by
  induction l with
  | nil => simp at hx
  | cons z l ih =>
    rcases List.mem_cons.1 hx with rfl | hx'
    · rcases List.mem_cons.1 hy with rfl | hy'
      · exact absurd rfl hxy
      · exact Or.inl (List.Sublist.cons₂ _ (List.singleton_sublist.2 hy'))
    · rcases List.mem_cons.1 hy with rfl | hy'
      · exact Or.inr (List.Sublist.cons₂ _ (List.singleton_sublist.2 hx'))
      · rcases ih hx' hy' with h | h
        · exact Or.inl (List.Sublist.cons _ h)
        · exact Or.inr (List.Sublist.cons _ h)

theorem pair_sublist_mem {α : Type} {l : List α} {x y : α} (h : List.Sublist [x, y] l) :
    x ∈ l ∧ y ∈ l :=
  ⟨h.subset (by simp), h.subset (by simp)⟩

theorem pair_sublist_ids_ne {l : List EventTimeSlot} {x y : EventTimeSlot}
    (hid : (l.map EventTimeSlot.ID).Nodup) (h : List.Sublist [x, y] l) : x.ID ≠ y.ID := by
  have h2 : List.Sublist [x.ID, y.ID] (l.map EventTimeSlot.ID) := h.map EventTimeSlot.ID
  have h3 := hid.sublist h2
  simpa using h3

theorem pair_sublist_sorted {l : List EventTimeSlot} {x y : EventTimeSlot}
    (hs : l.Pairwise (fun x y => ¬ slotLess y x)) (h : List.Sublist [x, y] l) :
    ¬ slotLess y x := by
  have := hs.sublist h
  simpa using this

theorem ids_injective {l : List EventTimeSlot} (hid : (l.map EventTimeSlot.ID).Nodup)
    {x y : EventTimeSlot} (hx : x ∈ l) (hy : y ∈ l) (h : x.ID = y.ID) : x = y :=
  List.inj_on_of_nodup_map hid hx hy h

theorem run_ids_nodup (srt : SliceSort) {slots : List EventTimeSlot}
    (hid : (slots.map EventTimeSlot.ID).Nodup) : ((srt.run slots).map EventTimeSlot.ID).Nodup :=
  ((srt.perm slots).map EventTimeSlot.ID).nodup_iff.2 hid

theorem two_le_length_of_mem_ne {α : Type} {l : List α} {x y : α} (hx : x ∈ l) (hy : y ∈ l)
    (hxy : x ≠ y) : ¬ l.length < 2 := by
  match l, hx, hy with
  | [], hx, _ => simp at hx
  | [z], hx, hy =>
    simp at hx hy
    exact absurd (hx.trans hy.symm) hxy
  | _ :: _ :: _, _, _ => simp

/-! ## The result of `Detect` in terms of its emissions -/

theorem mem_Detect_Conflicts {srt : SliceSort} {slots : List EventTimeSlot} {opts : Options}
    {c : Conflict} :
    c ∈ (Detect srt slots opts).Conflicts ↔ ∃ e ∈ detectTrace srt slots opts, e.record = c := by
  rw [Detect_Conflicts, List.mem_map]

theorem mem_detectTrace {srt : SliceSort} {slots : List EventTimeSlot} {opts : Options}
    {e : Emission} (h : e ∈ detectTrace srt slots opts) :
    List.Sublist [e.first, e.second] (srt.run slots) ∧ e.first ∈ slots ∧ e.second ∈ slots ∧
      pairResult opts e.first e.second = some e.record := by
  unfold detectTrace at h
  split_ifs at h
  · simp at h
  · obtain ⟨hs, hp⟩ := mem_outerTrace h
    obtain ⟨h1, h2⟩ := pair_sublist_mem hs
    exact ⟨hs, (srt.perm slots).mem_iff.1 h1, (srt.perm slots).mem_iff.1 h2, hp⟩

theorem detectTrace_complete {srt : SliceSort} {slots : List EventTimeSlot} {opts : Options}
    {a b : EventTimeSlot} {c : Conflict} (hl : ¬ slots.length < 2)
    (hab : List.Sublist [a, b] (srt.run slots)) (h : pairResult opts a b = some c) :
    (⟨a, b, c⟩ : Emission) ∈ detectTrace srt slots opts := by
  unfold detectTrace
  rw [if_neg hl]
  exact outerTrace_complete (srt.sorted slots) hab h

theorem Detect_ConflictMap (srt : SliceSort) (slots : List EventTimeSlot) (opts : Options) :
    (Detect srt slots opts).ConflictMap =
      (replay (detectTrace srt slots opts) ⟨fun _ => none, [], false⟩).ConflictMap := by
  unfold Detect detectTrace
  split_ifs
  · rfl
  · simp [outerLoop_eq_replay]

/-! ## Overlap detection -/

/-- An overlapping pair in sorted order is emitted as an overlap when the buffer
duration is not negative. -/
theorem overlap_emitted {srt : SliceSort} {slots : List EventTimeSlot} {opts : Options}
    (hd : 0 ≤ bufferDuration opts) {a b : EventTimeSlot} (hl : ¬ slots.length < 2)
    (hab : List.Sublist [a, b] (srt.run slots))
    (ho : a.Start < b.End ∧ b.Start < a.End) :
    (⟨a, b, overlapConflict a b⟩ : Emission) ∈ detectTrace srt slots opts := by
  apply detectTrace_complete hl hab
  have hnb : ¬ (b.Start > Time.Add a.End (bufferDuration opts) ∨
      b.Start = Time.Add a.End (bufferDuration opts)) := by
    unfold Time.Add
    omega
  simp [pairResult, hnb, ho]

/-- Claim C1, as amended: for every slot list with pairwise distinct IDs and every
bufferMinutes whose buffer duration (bufferMinutes × one minute, in the 64-bit
arithmetic of `time.Duration`) is not negative, the conflict list of `Detect`
contains a record of type "overlap" naming the IDs of two distinct slots `x`, `y`
of the list if and only if `x.Start < y.End` and `y.Start < x.End`. -/
theorem C1_overlap_sound_complete (srt : SliceSort) (slots : List EventTimeSlot)
    (opts : Options) (hid : (slots.map EventTimeSlot.ID).Nodup)
    (hd : 0 ≤ bufferDuration opts) (x y : EventTimeSlot) (hx : x ∈ slots) (hy : y ∈ slots)
    (hxy : x ≠ y) :
    (∃ c ∈ (Detect srt slots opts).Conflicts, c.Type_ = "overlap" ∧ c.names x.ID y.ID) ↔
      (x.Start < y.End ∧ y.Start < x.End) := by
  constructor
  · rintro ⟨c, hc, ht, hn⟩
    obtain ⟨e, he, rfl⟩ := mem_Detect_Conflicts.1 hc
    obtain ⟨_, h1, h2, hp⟩ := mem_detectTrace he
    have ho := pairResult_overlap hp ht
    have hids := pairResult_ids hp
    unfold Conflict.names at hn
    rw [hids] at hn
    rcases hn with hn | hn
    · simp only [List.cons.injEq, and_true] at hn
      rw [← ids_injective hid h1 hx hn.1, ← ids_injective hid h2 hy hn.2]
      exact ho
    · simp only [List.cons.injEq, and_true] at hn
      rw [← ids_injective hid h1 hy hn.1, ← ids_injective hid h2 hx hn.2]
      exact ⟨ho.2, ho.1⟩
  · intro ho
    have hl := two_le_length_of_mem_ne hx hy hxy
    have hx' := (srt.perm slots).mem_iff.2 hx
    have hy' := (srt.perm slots).mem_iff.2 hy
    rcases pair_sublist_or hx' hy' hxy with hs | hs
    · refine ⟨overlapConflict x y, ?_, rfl, Or.inl rfl⟩
      exact mem_Detect_Conflicts.2 ⟨_, overlap_emitted hd hl hs ho, rfl⟩
    · refine ⟨overlapConflict y x, ?_, rfl, Or.inr rfl⟩
      exact mem_Detect_Conflicts.2 ⟨_, overlap_emitted hd hl hs ⟨ho.2, ho.1⟩, rfl⟩

/-- Witness of C1 on the slots 09:00–10:00 and 09:30–10:30 with buffer 15. -/
theorem C1_overlap_sound_complete_witness :
    (∃ c ∈ (Detect insertionSliceSort [slotA, slotB0930] ⟨15⟩).Conflicts,
        c.Type_ = "overlap" ∧ c.names slotA.ID slotB0930.ID) ↔
      (slotA.Start < slotB0930.End ∧ slotB0930.Start < slotA.End) :=
  C1_overlap_sound_complete insertionSliceSort [slotA, slotB0930] ⟨15⟩ (by decide) (by decide)
    slotA slotB0930 (by decide) (by decide) (by decide)

/-- Counterexample to C1 as stated: with bufferMinutes = 153722868 ≥ 0 the product
`153722868 * time.Minute` exceeds the 64-bit range and wraps to a negative duration, the
sweep breaks at once, and the overlapping slots 09:00–10:00 and 09:30–10:30 (distinct IDs)
get no "overlap" record. -/
theorem C1_overlap_lost_on_overflow :
    ([slotA, slotB0930].map EventTimeSlot.ID).Nodup ∧ (0 : Int) ≤ 153722868 ∧
      (slotA.Start < slotB0930.End ∧ slotB0930.Start < slotA.End) ∧
      bufferDuration ⟨153722868⟩ = -9223371993709551616 ∧
      ¬ ∃ c ∈ (Detect insertionSliceSort [slotA, slotB0930] ⟨153722868⟩).Conflicts,
        c.Type_ = "overlap" ∧ c.names slotA.ID slotB0930.ID := by
  decide

/-! ## Insufficient-buffer detection -/

theorem bufferDuration_eq {opts : Options} (hb : 0 < opts.BufferMinutes)
    (hno : opts.BufferMinutes * Minute ≤ maxInt64) :
    bufferDuration opts = opts.BufferMinutes * Minute := by
  unfold bufferDuration wrapInt64
  unfold Minute maxInt64 at *
  omega

/-- A non-overlapping pair whose first-ending slot `x` leaves a gap below the buffer is
emitted, whichever of the two the sort puts first. -/
theorem buffer_emitted (srt : SliceSort) {slots : List EventTimeSlot} {opts : Options}
    (hinv : ∀ s ∈ slots, s.Start ≤ s.End) (hb : 0 < opts.BufferMinutes)
    (hno : opts.BufferMinutes * Minute ≤ maxInt64) {x y : EventTimeSlot} (hx : x ∈ slots)
    (hy : y ∈ slots) (hxy : x ≠ y) (hov : ¬ (x.Start < y.End ∧ y.Start < x.End))
    (hg0 : 0 ≤ y.Start - x.End) (hg1 : y.Start - x.End < opts.BufferMinutes * Minute) :
    ∃ c ∈ (Detect srt slots opts).Conflicts,
      c.Type_ = "insufficient_buffer" ∧ c.names x.ID y.ID := by
  have hl := two_le_length_of_mem_ne hx hy hxy
  have hx' := (srt.perm slots).mem_iff.2 hx
  have hy' := (srt.perm slots).mem_iff.2 hy
  have hbd := bufferDuration_eq hb hno
  have hix := hinv x hx
  have hiy := hinv y hy
  rcases pair_sublist_or hx' hy' hxy with hs | hs
  · refine ⟨bufferConflict opts x y, ?_, rfl, Or.inl rfl⟩
    refine mem_Detect_Conflicts.2
      ⟨⟨x, y, bufferConflict opts x y⟩, detectTrace_complete hl hs ?_, rfl⟩
    have hnb : ¬ (y.Start > Time.Add x.End (bufferDuration opts) ∨
        y.Start = Time.Add x.End (bufferDuration opts)) := by
      unfold Time.Add
      omega
    have hgap : Time.Sub y.Start x.End ≥ 0 ∧ Time.Sub y.Start x.End < bufferDuration opts := by
      unfold Time.Sub
      unfold maxInt64 minInt64 at *
      split_ifs <;> omega
    simp [pairResult, hnb, hov, hb, hgap]
  · have hsl := pair_sublist_sorted (srt.sorted slots) hs
    have heq : x.Start = y.Start ∧ x.End = y.Start ∧ y.End = y.Start := by
      unfold slotLess at hsl
      split_ifs at hsl <;> omega
    refine ⟨bufferConflict opts y x, ?_, rfl, Or.inr rfl⟩
    refine mem_Detect_Conflicts.2
      ⟨⟨y, x, bufferConflict opts y x⟩, detectTrace_complete hl hs ?_, rfl⟩
    have hnb : ¬ (x.Start > Time.Add y.End (bufferDuration opts) ∨
        x.Start = Time.Add y.End (bufferDuration opts)) := by
      unfold Time.Add
      omega
    have hov' : ¬ (y.Start < x.End ∧ x.Start < y.End) := by omega
    have hgap : Time.Sub x.Start y.End ≥ 0 ∧ Time.Sub x.Start y.End < bufferDuration opts := by
      unfold Time.Sub
      unfold maxInt64 minInt64 at *
      split_ifs <;> omega
    simp [pairResult, hnb, hov', hb, hgap]

/-- An emitted insufficient-buffer record, read back on the two slots compared. -/
theorem buffer_sound {opts : Options} (hno : opts.BufferMinutes * Minute ≤ maxInt64)
    {a b : EventTimeSlot} {c : Conflict} (hib : b.Start ≤ b.End)
    (hp : pairResult opts a b = some c) (ht : c.Type_ = "insufficient_buffer") :
    ¬ (a.Start < b.End ∧ b.Start < a.End) ∧ a.End ≤ b.End ∧ 0 ≤ b.Start - a.End ∧
      b.Start - a.End < opts.BufferMinutes * Minute := by
  obtain ⟨hov, hb, hg0, hg1⟩ := pairResult_buffer hp ht
  rw [bufferDuration_eq hb hno] at hg1
  unfold Time.Sub at hg0 hg1
  unfold maxInt64 minInt64 at *
  refine ⟨hov, ?_, ?_, ?_⟩ <;> split_ifs at hg0 hg1 <;> omega

/-- Claim C2, as amended: for every slot list with pairwise distinct IDs in which every
slot has start ≤ end, and every bufferMinutes > 0 whose duration fits `time.Duration`
(bufferMinutes × one minute ≤ 2^63 − 1 ns, i.e. bufferMinutes ≤ 153722867), the
conflict list of `Detect` contains a record of type "insufficient_buffer" naming the IDs of
two distinct slots `x`, `y` if and only if they do not overlap and, for the one of the two
that ends first (either one when both end together), the gap from its end to the start of
the other is at least 0 and below bufferMinutes minutes. -/
theorem C2_buffer_sound_complete (srt : SliceSort) (slots : List EventTimeSlot)
    (opts : Options) (hid : (slots.map EventTimeSlot.ID).Nodup)
    (hinv : ∀ s ∈ slots, s.Start ≤ s.End) (hb : 0 < opts.BufferMinutes)
    (hno : opts.BufferMinutes * Minute ≤ maxInt64)
    (x y : EventTimeSlot) (hx : x ∈ slots) (hy : y ∈ slots) (hxy : x ≠ y) :
    (∃ c ∈ (Detect srt slots opts).Conflicts,
        c.Type_ = "insufficient_buffer" ∧ c.names x.ID y.ID) ↔
      (¬ (x.Start < y.End ∧ y.Start < x.End) ∧
        ((x.End ≤ y.End ∧ 0 ≤ y.Start - x.End ∧
            y.Start - x.End < opts.BufferMinutes * Minute) ∨
          (y.End ≤ x.End ∧ 0 ≤ x.Start - y.End ∧
            x.Start - y.End < opts.BufferMinutes * Minute))) := by
  constructor
  · rintro ⟨c, hc, ht, hn⟩
    obtain ⟨e, he, rfl⟩ := mem_Detect_Conflicts.1 hc
    obtain ⟨_, h1, h2, hp⟩ := mem_detectTrace he
    have hids := pairResult_ids hp
    have hs := buffer_sound hno (hinv _ h2) hp ht
    unfold Conflict.names at hn
    rw [hids] at hn
    rcases hn with hn | hn
    · simp only [List.cons.injEq, and_true] at hn
      rw [← ids_injective hid h1 hx hn.1, ← ids_injective hid h2 hy hn.2]
      exact ⟨hs.1, Or.inl hs.2⟩
    · simp only [List.cons.injEq, and_true] at hn
      rw [← ids_injective hid h1 hy hn.1, ← ids_injective hid h2 hx hn.2]
      exact ⟨fun h => hs.1 ⟨h.2, h.1⟩, Or.inr hs.2⟩
  · rintro ⟨hov, ⟨_, hg0, hg1⟩ | ⟨_, hg0, hg1⟩⟩
    · exact buffer_emitted srt hinv hb hno hx hy hxy hov hg0 hg1
    · obtain ⟨c, hc, ht, hn⟩ := buffer_emitted srt hinv hb hno hy hx (Ne.symm hxy)
        (fun h => hov ⟨h.2, h.1⟩) hg0 hg1
      exact ⟨c, hc, ht, hn.symm⟩

/-- Witness of C2 on the touching slots 09:00–10:00 and 10:00–11:00 with buffer 15. -/
theorem C2_buffer_sound_complete_witness :
    (∃ c ∈ (Detect insertionSliceSort [slotA, slotB1000] ⟨15⟩).Conflicts,
        c.Type_ = "insufficient_buffer" ∧ c.names slotA.ID slotB1000.ID) ↔
      (¬ (slotA.Start < slotB1000.End ∧ slotB1000.Start < slotA.End) ∧
        ((slotA.End ≤ slotB1000.End ∧ 0 ≤ slotB1000.Start - slotA.End ∧
            slotB1000.Start - slotA.End < (15 : Int) * Minute) ∨
          (slotB1000.End ≤ slotA.End ∧ 0 ≤ slotA.Start - slotB1000.End ∧
            slotA.Start - slotB1000.End < (15 : Int) * Minute))) :=
  C2_buffer_sound_complete insertionSliceSort [slotA, slotB1000] ⟨15⟩ (by decide) (by decide)
    (by decide) (by decide) slotA slotB1000 (by decide) (by decide) (by decide)

/-- Counterexample to C2 as stated: with bufferMinutes = 153722868 > 0 the buffer duration
wraps to a negative value, and the touching slots 09:00–10:00 and 10:00–11:00 (distinct IDs,
start ≤ end, no overlap, gap 0 < bufferMinutes minutes) get no "insufficient_buffer" record. -/
theorem C2_buffer_lost_on_overflow :
    ([slotA, slotB1000].map EventTimeSlot.ID).Nodup ∧
      (∀ s ∈ [slotA, slotB1000], s.Start ≤ s.End) ∧ (0 : Int) < 153722868 ∧
      (¬ (slotA.Start < slotB1000.End ∧ slotB1000.Start < slotA.End) ∧
        slotA.End ≤ slotB1000.End ∧ 0 ≤ slotB1000.Start - slotA.End ∧
        slotB1000.Start - slotA.End < (153722868 : Int) * Minute) ∧
      ¬ ∃ c ∈ (Detect insertionSliceSort [slotA, slotB1000] ⟨153722868⟩).Conflicts,
        c.Type_ = "insufficient_buffer" ∧ c.names slotA.ID slotB1000.ID := by
  decide

/-! ## One record per pair -/

theorem innerTrace_first {opts : Options} {a : EventTimeSlot} {rest : List EventTimeSlot}
    {e : Emission} (h : e ∈ innerTrace opts a rest) : e.first = a :=
  (mem_innerTrace h).1

theorem innerTrace_seconds_sublist (opts : Options) (a : EventTimeSlot)
    (rest : List EventTimeSlot) :
    List.Sublist ((innerTrace opts a rest).map Emission.second) rest := by
  induction rest with
  | nil => simp [innerTrace]
  | cons b rest ih =>
    simp only [innerTrace]
    split_ifs
    · simp
    · simpa using ih
    · simpa using ih
    · exact List.Sublist.cons _ ih
    · exact List.Sublist.cons _ ih

/-- Two emissions of the sweep over slots with distinct IDs never compare the same two IDs. -/
theorem outerTrace_pairwise (opts : Options) {l : List EventTimeSlot}
    (hid : (l.map EventTimeSlot.ID).Nodup) :
    (outerTrace opts l).Pairwise (fun e f =>
      ¬ ((e.first.ID = f.first.ID ∧ e.second.ID = f.second.ID) ∨
        (e.first.ID = f.second.ID ∧ e.second.ID = f.first.ID))) := by
  induction l with
  | nil => simp [outerTrace]
  | cons a rest ih =>
    rw [List.map_cons, List.nodup_cons] at hid
    have hne : ∀ s ∈ rest, s.ID ≠ a.ID := by
      intro s hs h
      exact hid.1 (h ▸ List.mem_map_of_mem _ hs)
    simp only [outerTrace]
    rw [List.pairwise_append]
    refine ⟨?_, ih hid.2, ?_⟩
    · have hsub := innerTrace_seconds_sublist opts a rest
      have hp : ((innerTrace opts a rest).map Emission.second).Pairwise
          (fun s t => s.ID ≠ t.ID) := by
        have h0 : rest.Pairwise (fun s t => s.ID ≠ t.ID) := by
          have := hid.2
          rwa [List.Nodup, List.pairwise_map] at this
        exact h0.sublist hsub
      rw [List.pairwise_map] at hp
      refine hp.imp_of_mem ?_
      intro e f he hf hef
      have h1 := innerTrace_first he
      have h2 := innerTrace_first hf
      have h3 := (mem_innerTrace he).2.1
      have h4 := hne _ h3
      rw [h1, h2]
      rintro (⟨_, h⟩ | ⟨h, _⟩)
      · exact hef h
      · have h5 := (mem_innerTrace hf).2.1
        exact hne _ h5 h.symm
    · intro e he f hf
      have h1 := innerTrace_first he
      obtain ⟨hs, _⟩ := mem_outerTrace hf
      obtain ⟨hf1, hf2⟩ := pair_sublist_mem hs
      rw [h1]
      rintro (⟨h, _⟩ | ⟨h, _⟩)
      · exact hne _ hf1 h.symm
      · exact hne _ hf2 h.symm

theorem detectTrace_pairwise (srt : SliceSort) (opts : Options) {slots : List EventTimeSlot}
    (hid : (slots.map EventTimeSlot.ID).Nodup) :
    (detectTrace srt slots opts).Pairwise (fun e f =>
      ¬ ((e.first.ID = f.first.ID ∧ e.second.ID = f.second.ID) ∨
        (e.first.ID = f.second.ID ∧ e.second.ID = f.first.ID))) := by
  unfold detectTrace
  split_ifs
  · simp
  · exact outerTrace_pairwise opts (run_ids_nodup srt hid)

theorem names_same_pair {c d : Conflict} {a₁ b₁ a₂ b₂ x y : String}
    (hc : c.EventIDs = [a₁, b₁]) (hd : d.EventIDs = [a₂, b₂]) (h1 : c.names x y)
    (h2 : d.names x y) : (a₁ = a₂ ∧ b₁ = b₂) ∨ (a₁ = b₂ ∧ b₁ = a₂) := by
  unfold Conflict.names at h1 h2
  rw [hc] at h1
  rw [hd] at h2
  simp only [List.cons.injEq, and_true] at h1 h2
  rcases h1 with ⟨rfl, rfl⟩ | ⟨rfl, rfl⟩ <;> rcases h2 with ⟨rfl, rfl⟩ | ⟨rfl, rfl⟩ <;> simp

/-- The records of `Detect` over slots with distinct IDs name pairwise different pairs. -/
theorem Conflicts_pairwise (srt : SliceSort) (opts : Options) {slots : List EventTimeSlot}
    (hid : (slots.map EventTimeSlot.ID).Nodup) :
    (Detect srt slots opts).Conflicts.Pairwise
      (fun c d => ∀ x y, ¬ (c.names x y ∧ d.names x y)) := by
  rw [Detect_Conflicts, List.pairwise_map]
  refine (detectTrace_pairwise srt opts hid).imp_of_mem ?_
  intro e f he hf hef x y hxy
  have h1 := pairResult_ids (mem_detectTrace he).2.2.2
  have h2 := pairResult_ids (mem_detectTrace hf).2.2.2
  exact hef (names_same_pair h1 h2 hxy.1 hxy.2)

/-- Claim C3: for every slot list with pairwise distinct IDs and every bufferMinutes, no two
records of the conflict list of `Detect` name the same unordered pair of IDs; hence two
records found for one pair are one and the same, and no pair is reported both as "overlap"
and as "insufficient_buffer". -/
theorem C3_one_record_per_pair (srt : SliceSort) (slots : List EventTimeSlot) (opts : Options)
    (hid : (slots.map EventTimeSlot.ID).Nodup) :
    (Detect srt slots opts).Conflicts.Pairwise
        (fun c d => ∀ x y, ¬ (c.names x y ∧ d.names x y)) ∧
      (∀ c ∈ (Detect srt slots opts).Conflicts, ∀ d ∈ (Detect srt slots opts).Conflicts,
        ∀ x y, c.names x y → d.names x y → c = d) ∧
      (∀ x y, ¬ ((∃ c ∈ (Detect srt slots opts).Conflicts,
          c.Type_ = "overlap" ∧ c.names x y) ∧
        (∃ d ∈ (Detect srt slots opts).Conflicts,
          d.Type_ = "insufficient_buffer" ∧ d.names x y))) := by
  have hp := Conflicts_pairwise srt opts hid
  have hsymm : Symmetric (fun c d : Conflict => ∀ x y, ¬ (c.names x y ∧ d.names x y)) :=
    fun c d h x y hxy => h x y ⟨hxy.2, hxy.1⟩
  have huniq : ∀ c ∈ (Detect srt slots opts).Conflicts,
      ∀ d ∈ (Detect srt slots opts).Conflicts, ∀ x y, c.names x y → d.names x y → c = d := by
    intro c hc d hd x y hcx hdx
    by_contra hne
    exact hp.forall hsymm hc hd hne x y ⟨hcx, hdx⟩
  refine ⟨hp, huniq, ?_⟩
  rintro x y ⟨⟨c, hc, hct, hcn⟩, ⟨d, hd, hdt, hdn⟩⟩
  have := huniq c hc d hd x y hcn hdn
  subst this
  rw [hct] at hdt
  exact absurd hdt (by decide)

/-- Witness of C3 on three slots, two overlapping and two within the buffer. -/
theorem C3_one_record_per_pair_witness :
    (Detect insertionSliceSort [slotB1000, slotA, ⟨"C", clock 9 30, clock 10 0, false⟩]
        ⟨15⟩).Conflicts.Pairwise (fun c d => ∀ x y, ¬ (c.names x y ∧ d.names x y)) :=
  (C3_one_record_per_pair insertionSliceSort
    [slotB1000, slotA, ⟨"C", clock 9 30, clock 10 0, false⟩] ⟨15⟩ (by decide)).1

/-! ## The adjacency map -/

theorem addToConflictMap_get (m : ConflictMap) (x y a z : String) :
    z ∈ (addToConflictMap m x y).get a ↔
      z ∈ m.get a ∨ (a = x ∧ z = y) ∨ (a = y ∧ z = x) := by
  unfold addToConflictMap ConflictMap.get ConflictMap.set
  by_cases hay : a = y <;> by_cases hax : a = x <;> by_cases hxy : y = x <;>
    simp_all

theorem addToConflictMap_isSome (m : ConflictMap) (x y a : String) :
    ((addToConflictMap m x y) a).isSome ↔ (m a).isSome ∨ a = x ∨ a = y := by
  unfold addToConflictMap ConflictMap.get ConflictMap.set
  by_cases hay : a = y <;> by_cases hax : a = x <;> simp_all

theorem replay_get (es : List Emission) (r : Result) (a z : String) :
    z ∈ (replay es r).ConflictMap.get a ↔
      z ∈ r.ConflictMap.get a ∨
        ∃ e ∈ es, (a = e.first.ID ∧ z = e.second.ID) ∨ (a = e.second.ID ∧ z = e.first.ID) := by
  induction es generalizing r with
  | nil => simp [replay]
  | cons e es ih =>
    have := ih (r.emit e.record e.first e.second)
    simp only [replay, List.foldl_cons] at this ⊢
    rw [this]
    simp only [Result.emit, addToConflictMap_get, List.mem_cons, exists_eq_or_imp]
    exact or_assoc

theorem replay_isSome (es : List Emission) (r : Result) (a : String) :
    ((replay es r).ConflictMap a).isSome ↔
      (r.ConflictMap a).isSome ∨ ∃ e ∈ es, a = e.first.ID ∨ a = e.second.ID := by
  induction es generalizing r with
  | nil => simp [replay]
  | cons e es ih =>
    have := ih (r.emit e.record e.first e.second)
    simp only [replay, List.foldl_cons] at this ⊢
    rw [this]
    simp only [Result.emit, addToConflictMap_isSome, List.mem_cons, exists_eq_or_imp]
    exact or_assoc

theorem Detect_get (srt : SliceSort) (slots : List EventTimeSlot) (opts : Options)
    (a z : String) :
    z ∈ (Detect srt slots opts).ConflictMap.get a ↔
      ∃ e ∈ detectTrace srt slots opts,
        (a = e.first.ID ∧ z = e.second.ID) ∨ (a = e.second.ID ∧ z = e.first.ID) := by
  rw [Detect_ConflictMap, replay_get]
  simp [ConflictMap.get]

theorem Detect_isSome (srt : SliceSort) (slots : List EventTimeSlot) (opts : Options)
    (a : String) :
    ((Detect srt slots opts).ConflictMap a).isSome ↔
      ∃ e ∈ detectTrace srt slots opts, a = e.first.ID ∨ a = e.second.ID := by
  rw [Detect_ConflictMap, replay_isSome]
  simp

theorem record_ids {srt : SliceSort} {slots : List EventTimeSlot} {opts : Options}
    {e : Emission} (h : e ∈ detectTrace srt slots opts) :
    e.record.EventIDs = [e.first.ID, e.second.ID] :=
  pairResult_ids (mem_detectTrace h).2.2.2

/-- The adjacency list under `a` holds `z` exactly when some record names `a` and `z`. -/
theorem Detect_get_iff_names (srt : SliceSort) (slots : List EventTimeSlot) (opts : Options)
    (a z : String) :
    z ∈ (Detect srt slots opts).ConflictMap.get a ↔
      ∃ c ∈ (Detect srt slots opts).Conflicts, c.names a z := by
  rw [Detect_get]
  constructor
  · rintro ⟨e, he, h⟩
    refine ⟨e.record, mem_Detect_Conflicts.2 ⟨e, he, rfl⟩, ?_⟩
    unfold Conflict.names
    rw [record_ids he]
    rcases h with ⟨rfl, rfl⟩ | ⟨rfl, rfl⟩
    · exact Or.inl rfl
    · exact Or.inr rfl
  · rintro ⟨c, hc, hn⟩
    obtain ⟨e, he, rfl⟩ := mem_Detect_Conflicts.1 hc
    refine ⟨e, he, ?_⟩
    unfold Conflict.names at hn
    rw [record_ids he] at hn
    simp only [List.cons.injEq, and_true] at hn
    rcases hn with ⟨h1, h2⟩ | ⟨h1, h2⟩
    · exact Or.inl ⟨h1.symm, h2.symm⟩
    · exact Or.inr ⟨h2.symm, h1.symm⟩

/-- Claim C5: for every slot list and bufferMinutes, in the adjacency map returned by
`Detect`, ID `b` appears in the list under `a` if and only if ID `a` appears in the list
under `b`. -/
theorem C5_adjacency_symmetric (srt : SliceSort) (slots : List EventTimeSlot) (opts : Options)
    (a b : String) :
    b ∈ (Detect srt slots opts).ConflictMap.get a ↔
      a ∈ (Detect srt slots opts).ConflictMap.get b := by
  rw [Detect_get, Detect_get]
  constructor <;> rintro ⟨e, he, h⟩ <;> exact ⟨e, he, h.symm.imp And.symm And.symm⟩

/-- Claim C7: for every slot list and bufferMinutes, ID `b` appears in the adjacency list of
`Detect` under `a` if and only if the conflict list contains a record whose two event IDs are
`a` and `b` in either order; and an ID is not a key of the map exactly when no record of the
conflict list holds it. -/
theorem C7_adjacency_indexes_conflicts (srt : SliceSort) (slots : List EventTimeSlot)
    (opts : Options) :
    (∀ a b : String, b ∈ (Detect srt slots opts).ConflictMap.get a ↔
        ∃ c ∈ (Detect srt slots opts).Conflicts, c.EventIDs = [a, b] ∨ c.EventIDs = [b, a]) ∧
      (∀ a : String, (Detect srt slots opts).ConflictMap a = none ↔
        ∀ c ∈ (Detect srt slots opts).Conflicts, a ∉ c.EventIDs) := by
  refine ⟨fun a b => Detect_get_iff_names srt slots opts a b, fun a => ?_⟩
  rw [← Option.not_isSome_iff_eq_none, Detect_isSome]
  constructor
  · intro h c hc hmem
    obtain ⟨e, he, rfl⟩ := mem_Detect_Conflicts.1 hc
    rw [record_ids he] at hmem
    simp only [List.mem_cons, List.mem_singleton, List.not_mem_nil, or_false] at hmem
    exact h ⟨e, he, hmem⟩
  · rintro h ⟨e, he, hmem⟩
    apply h e.record (mem_Detect_Conflicts.2 ⟨e, he, rfl⟩)
    rw [record_ids he]
    simpa using hmem

/-! ## No self-conflict -/

theorem emission_ids_ne {srt : SliceSort} {slots : List EventTimeSlot} {opts : Options}
    (hid : (slots.map EventTimeSlot.ID).Nodup) {e : Emission}
    (he : e ∈ detectTrace srt slots opts) : e.first.ID ≠ e.second.ID :=
  pair_sublist_ids_ne (run_ids_nodup srt hid) (mem_detectTrace he).1

/-- Claim C6: for every slot list with pairwise distinct IDs and every bufferMinutes, no event
ID appears in its own adjacency list in the result of `Detect`, and no conflict record names
the same ID twice. -/
theorem C6_no_self_conflict (srt : SliceSort) (slots : List EventTimeSlot) (opts : Options)
    (hid : (slots.map EventTimeSlot.ID).Nodup) :
    (∀ a : String, a ∉ (Detect srt slots opts).ConflictMap.get a) ∧
      (∀ c ∈ (Detect srt slots opts).Conflicts, c.EventIDs.Nodup) := by
  constructor
  · intro a ha
    obtain ⟨e, he, h⟩ := (Detect_get srt slots opts a a).1 ha
    have hne := emission_ids_ne hid he
    rcases h with ⟨h1, h2⟩ | ⟨h1, h2⟩
    · exact hne (h1.symm.trans h2)
    · exact hne (h2.symm.trans h1)
  · intro c hc
    obtain ⟨e, he, rfl⟩ := mem_Detect_Conflicts.1 hc
    rw [record_ids he]
    simpa using emission_ids_ne hid he

/-- Witness of C6 on three slots, two overlapping and two within the buffer. -/
theorem C6_no_self_conflict_witness :
    (∀ a : String, a ∉ (Detect insertionSliceSort
        [slotB1000, slotA, ⟨"C", clock 9 30, clock 10 0, false⟩] ⟨15⟩).ConflictMap.get a) ∧
      (∀ c ∈ (Detect insertionSliceSort
        [slotB1000, slotA, ⟨"C", clock 9 30, clock 10 0, false⟩] ⟨15⟩).Conflicts,
          c.EventIDs.Nodup) :=
  C6_no_self_conflict insertionSliceSort
    [slotB1000, slotA, ⟨"C", clock 9 30, clock 10 0, false⟩] ⟨15⟩ (by decide)

/-! ## Order independence -/

theorem slotLess_antisymm {a b : EventTimeSlot} (h1 : ¬ slotLess a b) (h2 : ¬ slotLess b a) :
    a.Start = b.Start ∧ a.End = b.End := by
  unfold slotLess at h1 h2
  split_ifs at h1 h2 <;> omega

/-- Two slots with the same start and end give the same record in either order, up to the
order of the two IDs. -/
theorem pairResult_swap {opts : Options} {a b : EventTimeSlot} {c : Conflict}
    (hs : a.Start = b.Start) (he : a.End = b.End) (h : pairResult opts a b = some c) :
    ∃ d, pairResult opts b a = some d ∧ c.sameUpToOrder d ∧ d.EventIDs = [b.ID, a.ID] := by
  obtain ⟨hnb, ⟨ho, rfl⟩ | ⟨hno, hb, hg, rfl⟩⟩ := pairResult_cases h
  · refine ⟨overlapConflict b a, ?_, ?_, rfl⟩
    · simp only [hs, he] at hnb ho
      simp [pairResult, hs, he, hnb, ho]
    · simp [Conflict.sameUpToOrder, overlapConflict, hs, he]
  · refine ⟨bufferConflict opts b a, ?_, ?_, rfl⟩
    · simp only [hs, he] at hnb hno hg
      have hno' : ¬ b.Start < b.End := fun h => hno ⟨h, h⟩
      simp [pairResult, hs, he, hnb, hno', hb, hg]
    · simp [Conflict.sameUpToOrder, bufferConflict, hs, he]

/-- Every emission of a run on `slots` has a counterpart, equal up to the order of the two
slots, in a run on any rearrangement of `slots`. -/
theorem emission_transfer {srt srt' : SliceSort} {slots slots' : List EventTimeSlot}
    {opts : Options} (hperm : slots'.Perm slots) (hid : (slots.map EventTimeSlot.ID).Nodup)
    {e : Emission} (he : e ∈ detectTrace srt slots opts) :
    ∃ f ∈ detectTrace srt' slots' opts, e.record.sameUpToOrder f.record ∧
      ((e.first.ID = f.first.ID ∧ e.second.ID = f.second.ID) ∨
        (e.first.ID = f.second.ID ∧ e.second.ID = f.first.ID)) := by
  obtain ⟨hsub, h1, h2, hp⟩ := mem_detectTrace he
  have hne : e.first ≠ e.second := fun h => emission_ids_ne hid he (congrArg _ h)
  have h1' : e.first ∈ slots' := hperm.mem_iff.2 h1
  have h2' : e.second ∈ slots' := hperm.mem_iff.2 h2
  have hl := two_le_length_of_mem_ne h1' h2' hne
  rcases pair_sublist_or ((srt'.perm slots').mem_iff.2 h1') ((srt'.perm slots').mem_iff.2 h2')
    hne with hs | hs
  · refine ⟨⟨e.first, e.second, e.record⟩, detectTrace_complete hl hs hp, ?_, Or.inl ⟨rfl, rfl⟩⟩
    simp [Conflict.sameUpToOrder]
  · have hk := slotLess_antisymm (pair_sublist_sorted (srt'.sorted slots') hs)
      (pair_sublist_sorted (srt.sorted slots) hsub)
    obtain ⟨d, hd, hsame, _⟩ := pairResult_swap hk.1 hk.2 hp
    exact ⟨⟨e.second, e.first, d⟩, detectTrace_complete hl hs hd, hsame, Or.inr ⟨rfl, rfl⟩⟩

theorem sameUpToOrder_symm {c d : Conflict} (h : c.sameUpToOrder d) : d.sameUpToOrder c := by
  obtain ⟨h1, h2, h3, h4, h5⟩ := h
  refine ⟨h1.symm, ?_, h3.symm, h4.symm, h5.symm⟩
  rcases h2 with h2 | h2
  · exact Or.inl h2.symm
  · right
    rw [h2, List.reverse_reverse]

/-- Claim C4: for every slot list with pairwise distinct IDs, every bufferMinutes (in
particular every bufferMinutes ≥ 0) and every permutation of the list, `Detect` on the
permuted list yields the same set of conflicts (each taken as its type, its unordered ID
pair and its minute fields) and the same adjacency map (the same keys, each mapped to the
same set of IDs) as `Detect` on the original list, whatever order `sort.Slice` leaves equal
slots in. -/
theorem C4_order_independent (srt srt' : SliceSort) (slots slots' : List EventTimeSlot)
    (opts : Options) (hperm : slots'.Perm slots) (hid : (slots.map EventTimeSlot.ID).Nodup) :
    (∀ c ∈ (Detect srt slots opts).Conflicts,
        ∃ d ∈ (Detect srt' slots' opts).Conflicts, c.sameUpToOrder d) ∧
      (∀ d ∈ (Detect srt' slots' opts).Conflicts,
        ∃ c ∈ (Detect srt slots opts).Conflicts, c.sameUpToOrder d) ∧
      (∀ a b : String, b ∈ (Detect srt' slots' opts).ConflictMap.get a ↔
        b ∈ (Detect srt slots opts).ConflictMap.get a) ∧
      (∀ a : String, (Detect srt' slots' opts).ConflictMap a = none ↔
        (Detect srt slots opts).ConflictMap a = none) := by
  have hid' : (slots'.map EventTimeSlot.ID).Nodup :=
    (hperm.map EventTimeSlot.ID).nodup_iff.2 hid
  have fwd : ∀ e ∈ detectTrace srt slots opts, ∃ f ∈ detectTrace srt' slots' opts,
      e.record.sameUpToOrder f.record ∧
      ((e.first.ID = f.first.ID ∧ e.second.ID = f.second.ID) ∨
        (e.first.ID = f.second.ID ∧ e.second.ID = f.first.ID)) :=
    fun e he => emission_transfer hperm hid he
  have bwd : ∀ e ∈ detectTrace srt' slots' opts, ∃ f ∈ detectTrace srt slots opts,
      e.record.sameUpToOrder f.record ∧
      ((e.first.ID = f.first.ID ∧ e.second.ID = f.second.ID) ∨
        (e.first.ID = f.second.ID ∧ e.second.ID = f.first.ID)) :=
    fun e he => emission_transfer hperm.symm hid' he
  refine ⟨?_, ?_, ?_, ?_⟩
  · intro c hc
    obtain ⟨e, he, rfl⟩ := mem_Detect_Conflicts.1 hc
    obtain ⟨f, hf, hsame, _⟩ := fwd e he
    exact ⟨f.record, mem_Detect_Conflicts.2 ⟨f, hf, rfl⟩, hsame⟩
  · intro d hd
    obtain ⟨e, he, rfl⟩ := mem_Detect_Conflicts.1 hd
    obtain ⟨f, hf, hsame, _⟩ := bwd e he
    exact ⟨f.record, mem_Detect_Conflicts.2 ⟨f, hf, rfl⟩, sameUpToOrder_symm hsame⟩
  · intro a b
    rw [Detect_get, Detect_get]
    constructor
    · rintro ⟨e, he, h⟩
      obtain ⟨f, hf, _, hids⟩ := bwd e he
      refine ⟨f, hf, ?_⟩
      rcases h with ⟨rfl, rfl⟩ | ⟨rfl, rfl⟩ <;> rcases hids with ⟨h1, h2⟩ | ⟨h1, h2⟩
      · exact Or.inl ⟨h1, h2⟩
      · exact Or.inr ⟨h1, h2⟩
      · exact Or.inr ⟨h2, h1⟩
      · exact Or.inl ⟨h2, h1⟩
    · rintro ⟨e, he, h⟩
      obtain ⟨f, hf, _, hids⟩ := fwd e he
      refine ⟨f, hf, ?_⟩
      rcases h with ⟨rfl, rfl⟩ | ⟨rfl, rfl⟩ <;> rcases hids with ⟨h1, h2⟩ | ⟨h1, h2⟩
      · exact Or.inl ⟨h1, h2⟩
      · exact Or.inr ⟨h1, h2⟩
      · exact Or.inr ⟨h2, h1⟩
      · exact Or.inl ⟨h2, h1⟩
  · intro a
    rw [← Option.not_isSome_iff_eq_none, ← Option.not_isSome_iff_eq_none, Detect_isSome,
      Detect_isSome, not_iff_not]
    constructor
    · rintro ⟨e, he, h⟩
      obtain ⟨f, hf, _, hids⟩ := bwd e he
      refine ⟨f, hf, ?_⟩
      rcases h with rfl | rfl <;> rcases hids with ⟨h1, h2⟩ | ⟨h1, h2⟩
      · exact Or.inl h1
      · exact Or.inr h1
      · exact Or.inr h2
      · exact Or.inl h2
    · rintro ⟨e, he, h⟩
      obtain ⟨f, hf, _, hids⟩ := fwd e he
      refine ⟨f, hf, ?_⟩
      rcases h with rfl | rfl <;> rcases hids with ⟨h1, h2⟩ | ⟨h1, h2⟩
      · exact Or.inl h1
      · exact Or.inr h1
      · exact Or.inr h2
      · exact Or.inl h2

/-- Witness of C4 on the slots 09:00–10:00 and 09:30–10:30, in the two orders, buffer 15. -/
theorem C4_order_independent_witness :
    (∀ c ∈ (Detect insertionSliceSort [slotA, slotB0930] ⟨15⟩).Conflicts,
        ∃ d ∈ (Detect insertionSliceSort [slotB0930, slotA] ⟨15⟩).Conflicts,
          c.sameUpToOrder d) ∧
      (∀ d ∈ (Detect insertionSliceSort [slotB0930, slotA] ⟨15⟩).Conflicts,
        ∃ c ∈ (Detect insertionSliceSort [slotA, slotB0930] ⟨15⟩).Conflicts,
          c.sameUpToOrder d) ∧
      (∀ a b : String,
        b ∈ (Detect insertionSliceSort [slotB0930, slotA] ⟨15⟩).ConflictMap.get a ↔
          b ∈ (Detect insertionSliceSort [slotA, slotB0930] ⟨15⟩).ConflictMap.get a) ∧
      (∀ a : String, (Detect insertionSliceSort [slotB0930, slotA] ⟨15⟩).ConflictMap a = none ↔
        (Detect insertionSliceSort [slotA, slotB0930] ⟨15⟩).ConflictMap a = none) :=
  C4_order_independent insertionSliceSort insertionSliceSort [slotA, slotB0930]
    [slotB0930, slotA] ⟨15⟩ (List.Perm.swap _ _ _) (by decide)

/-! ## Two-slot inputs -/

/-- On two slots of which the first is less than the second, `sort.Slice` changes nothing. -/
theorem run_pair (srt : SliceSort) {a b : EventTimeSlot} (h : slotLess a b) :
    srt.run [a, b] = [a, b] := by
  have hp := srt.perm [a, b]
  have hs := srt.sorted [a, b]
  obtain ⟨u, v, huv⟩ := List.length_eq_two.1 (hp.length_eq.trans rfl)
  rw [huv] at hp hs ⊢
  have hu : u ∈ [a, b] := hp.mem_iff.1 (by simp)
  have hv : v ∈ [a, b] := hp.mem_iff.1 (by simp)
  have ha : a ∈ [u, v] := hp.mem_iff.2 (by simp)
  have hb : b ∈ [u, v] := hp.mem_iff.2 (by simp)
  have hvu : ¬ slotLess v u := by simpa using hs
  have hirr : ∀ s : EventTimeSlot, ¬ slotLess s s := by
    intro s
    unfold slotLess
    simp
  simp only [List.mem_cons, List.mem_singleton, List.not_mem_nil, or_false] at hu hv ha hb
  rcases hu with rfl | rfl <;> rcases hv with rfl | rfl
  · rcases hb with rfl | rfl <;> exact absurd h (hirr _)
  · rfl
  · exact absurd h hvu
  · rcases ha with rfl | rfl <;> exact absurd h (hirr _)

theorem Detect_pair (srt : SliceSort) (a b : EventTimeSlot) (h : slotLess a b)
    (opts : Options) :
    (Detect srt [a, b] opts).Conflicts =
        (outerLoop opts [a, b] ⟨fun _ => none, [], false⟩).Conflicts ∧
      (Detect srt [a, b] opts).HasConflicts =
        decide ((outerLoop opts [a, b] ⟨fun _ => none, [], false⟩).Conflicts.length > 0) ∧
      (Detect srt [a, b] opts).ConflictMap =
        (outerLoop opts [a, b] ⟨fun _ => none, [], false⟩).ConflictMap := by
  unfold Detect
  simp [run_pair srt h]

/-! ## Boundaries -/

theorem wrapInt64_le (v : Int) (hv : 0 ≤ v) : wrapInt64 v ≤ v ∧ wrapInt64 v ≤ maxInt64 := by
  unfold wrapInt64 maxInt64
  omega

/-- Claim C8: for every slot list, every bufferMinutes and every two slots `a`, `b` with
`a.End = b.Start`, no record that `Detect` emits when it compares `a` and `b` (in either
order) has type "overlap"; and when the IDs of the list are pairwise distinct, no record of
the conflict list that names the IDs of `a` and `b` has type "overlap". -/
theorem C8_boundary_exclusive (srt : SliceSort) (slots : List EventTimeSlot) (opts : Options)
    (a b : EventTimeSlot) (hab : a.End = b.Start) :
    (∀ e ∈ detectTrace srt slots opts,
        (e.first = a ∧ e.second = b) ∨ (e.first = b ∧ e.second = a) →
          e.record.Type_ ≠ "overlap") ∧
      ((slots.map EventTimeSlot.ID).Nodup → a ∈ slots → b ∈ slots →
        ∀ c ∈ (Detect srt slots opts).Conflicts, c.names a.ID b.ID → c.Type_ ≠ "overlap") := by
  have key : ∀ e ∈ detectTrace srt slots opts,
      (e.first = a ∧ e.second = b) ∨ (e.first = b ∧ e.second = a) →
        e.record.Type_ ≠ "overlap" := by
    intro e he hpair ht
    have ho := pairResult_overlap (mem_detectTrace he).2.2.2 ht
    rcases hpair with ⟨h1, h2⟩ | ⟨h1, h2⟩ <;> rw [h1, h2] at ho <;> omega
  refine ⟨key, ?_⟩
  intro hid ha hb c hc hn
  obtain ⟨e, he, rfl⟩ := mem_Detect_Conflicts.1 hc
  obtain ⟨_, h1, h2, _⟩ := mem_detectTrace he
  apply key e he
  unfold Conflict.names at hn
  rw [record_ids he] at hn
  simp only [List.cons.injEq, and_true] at hn
  rcases hn with hn | hn
  · exact Or.inl ⟨ids_injective hid h1 ha hn.1, ids_injective hid h2 hb hn.2⟩
  · exact Or.inr ⟨ids_injective hid h1 hb hn.1, ids_injective hid h2 ha hn.2⟩

/-- Witness of C8 on the touching slots 09:00–10:00 and 10:00–11:00 with buffer 15. -/
theorem C8_boundary_exclusive_witness :
    slotA.End = slotB1000.Start ∧
      ∀ c ∈ (Detect insertionSliceSort [slotA, slotB1000] ⟨15⟩).Conflicts,
        c.names slotA.ID slotB1000.ID → c.Type_ ≠ "overlap" :=
  ⟨by decide, (C8_boundary_exclusive insertionSliceSort [slotA, slotB1000] ⟨15⟩ slotA slotB1000
    (by decide)).2 (by decide) (by decide) (by decide)⟩

/-- The record of an emission that compares two slots `a`, `b` with `a.End = b.Start`, in
either order: it is an insufficient-buffer record, so the buffer is positive, and its gap is 0
when both slots have start ≤ end. -/
theorem touching_record {srt : SliceSort} {slots : List EventTimeSlot} {opts : Options}
    {a b : EventTimeSlot} (hab : a.End = b.Start) {e : Emission}
    (he : e ∈ detectTrace srt slots opts)
    (hpair : (e.first = a ∧ e.second = b) ∨ (e.first = b ∧ e.second = a)) :
    0 < opts.BufferMinutes ∧ e.record.Type_ = "insufficient_buffer" ∧
      e.record.OverlapMinutes = 0 ∧ e.record.RequiredBufferMinutes = opts.BufferMinutes ∧
      (a.Start ≤ a.End → b.Start ≤ b.End → e.record.GapMinutes = 0) := by
  obtain ⟨_, ⟨ho, _⟩ | ⟨_, hb, hg, hc⟩⟩ := pairResult_cases (mem_detectTrace he).2.2.2
  · rcases hpair with ⟨h1, h2⟩ | ⟨h1, h2⟩ <;> rw [h1, h2] at ho <;> omega
  · refine ⟨hb, by rw [hc]; rfl, by rw [hc]; rfl, by rw [hc]; rfl, ?_⟩
    intro hia hib
    have hz : Time.Sub e.second.Start e.first.End = 0 := by
      have h0 := hg.1
      unfold Time.Sub at h0 ⊢
      unfold maxInt64 minInt64 at *
      rcases hpair with ⟨h1, h2⟩ | ⟨h1, h2⟩ <;> rw [h1, h2] at h0 ⊢ <;>
        split_ifs at h0 ⊢ <;> omega
    rw [hc]
    simp only [bufferConflict]
    rw [hz]
    decide

/-- Two different slots of the list, each with start ≤ end, the first ending exactly when the
second starts, are compared and emitted as an insufficient-buffer record when the buffer is
positive and its duration fits `time.Duration`. -/
theorem touching_emitted (srt : SliceSort) {slots : List EventTimeSlot} {opts : Options}
    (hb : 0 < opts.BufferMinutes) (hno : opts.BufferMinutes * Minute ≤ maxInt64)
    {a b : EventTimeSlot} (ha : a ∈ slots) (hbm : b ∈ slots) (hne : a ≠ b)
    (hia : a.Start ≤ a.End) (hib : b.Start ≤ b.End) (hab : a.End = b.Start) :
    ∃ e ∈ detectTrace srt slots opts,
      (e.first = a ∧ e.second = b) ∨ (e.first = b ∧ e.second = a) := by
  have hl := two_le_length_of_mem_ne ha hbm hne
  have ha' := (srt.perm slots).mem_iff.2 ha
  have hb' := (srt.perm slots).mem_iff.2 hbm
  have hbd := bufferDuration_eq hb hno
  have hpos : 0 < opts.BufferMinutes * Minute := by unfold Minute; omega
  rcases pair_sublist_or ha' hb' hne with hs | hs
  · refine ⟨⟨a, b, bufferConflict opts a b⟩, detectTrace_complete hl hs ?_, Or.inl ⟨rfl, rfl⟩⟩
    have hnb : ¬ (b.Start > Time.Add a.End (bufferDuration opts) ∨
        b.Start = Time.Add a.End (bufferDuration opts)) := by
      unfold Time.Add
      omega
    have hov : ¬ (a.Start < b.End ∧ b.Start < a.End) := by omega
    have hgap : Time.Sub b.Start a.End ≥ 0 ∧ Time.Sub b.Start a.End < bufferDuration opts := by
      unfold Time.Sub
      unfold maxInt64 minInt64 at *
      split_ifs <;> omega
    simp [pairResult, hnb, hov, hb, hgap]
  · have hsl := pair_sublist_sorted (srt.sorted slots) hs
    have heq : a.Start = b.Start ∧ b.End = b.Start := by
      unfold slotLess at hsl
      split_ifs at hsl <;> omega
    refine ⟨⟨b, a, bufferConflict opts b a⟩, detectTrace_complete hl hs ?_, Or.inr ⟨rfl, rfl⟩⟩
    have hnb : ¬ (a.Start > Time.Add b.End (bufferDuration opts) ∨
        a.Start = Time.Add b.End (bufferDuration opts)) := by
      unfold Time.Add
      omega
    have hov : ¬ (b.Start < a.End ∧ a.Start < b.End) := by omega
    have hgap : Time.Sub a.Start b.End ≥ 0 ∧ Time.Sub a.Start b.End < bufferDuration opts := by
      unfold Time.Sub
      unfold maxInt64 minInt64 at *
      split_ifs <;> omega
    simp [pairResult, hnb, hov, hb, hgap]

/-- Claim C9, as amended: for every slot list, every bufferMinutes and every two slots `a`,
`b` with `a.End = b.Start`: (1) when bufferMinutes ≤ 0, `Detect` emits no record of any type
when it compares `a` and `b` (in either order), and when the IDs of the list are pairwise
distinct no record of the conflict list names the IDs of `a` and `b`; (2) whatever
bufferMinutes is, a record emitted for the two slots, and for distinct IDs a record naming
their IDs, is never an "overlap": it has type "insufficient_buffer", overlapMinutes 0 and
requiredBufferMinutes = bufferMinutes, and gapMinutes 0 when both slots have start ≤ end;
(3) when bufferMinutes > 0 fits `time.Duration` (bufferMinutes × one minute ≤ 2^63 − 1 ns),
and `a`, `b` are two different slots of the list, each with start ≤ end, the conflict list
does contain a record naming their IDs, of type "insufficient_buffer" with overlapMinutes 0,
gapMinutes 0 and requiredBufferMinutes = bufferMinutes. -/
theorem C9_touching_pair (srt : SliceSort) (slots : List EventTimeSlot)
    (opts : Options) (a b : EventTimeSlot) (hab : a.End = b.Start) :
    (opts.BufferMinutes ≤ 0 →
      (∀ e ∈ detectTrace srt slots opts,
        ¬ ((e.first = a ∧ e.second = b) ∨ (e.first = b ∧ e.second = a))) ∧
      ((slots.map EventTimeSlot.ID).Nodup → a ∈ slots → b ∈ slots →
        ∀ c ∈ (Detect srt slots opts).Conflicts, ¬ c.names a.ID b.ID)) ∧
    ((∀ e ∈ detectTrace srt slots opts,
        (e.first = a ∧ e.second = b) ∨ (e.first = b ∧ e.second = a) →
          e.record.Type_ ≠ "overlap" ∧ e.record.Type_ = "insufficient_buffer" ∧
            e.record.OverlapMinutes = 0 ∧
            e.record.RequiredBufferMinutes = opts.BufferMinutes ∧
            (a.Start ≤ a.End → b.Start ≤ b.End → e.record.GapMinutes = 0)) ∧
      ((slots.map EventTimeSlot.ID).Nodup → a ∈ slots → b ∈ slots →
        ∀ c ∈ (Detect srt slots opts).Conflicts, c.names a.ID b.ID →
          c.Type_ ≠ "overlap" ∧ c.Type_ = "insufficient_buffer" ∧ c.OverlapMinutes = 0 ∧
            c.RequiredBufferMinutes = opts.BufferMinutes ∧
            (a.Start ≤ a.End → b.Start ≤ b.End → c.GapMinutes = 0))) ∧
    (0 < opts.BufferMinutes → opts.BufferMinutes * Minute ≤ maxInt64 →
      a ∈ slots → b ∈ slots → a ≠ b → a.Start ≤ a.End → b.Start ≤ b.End →
      ∃ c ∈ (Detect srt slots opts).Conflicts,
        c.names a.ID b.ID ∧ c.Type_ = "insufficient_buffer" ∧ c.OverlapMinutes = 0 ∧
          c.GapMinutes = 0 ∧ c.RequiredBufferMinutes = opts.BufferMinutes) := by
  -- a record naming the two IDs comes from an emission comparing the two slots
  have byID : (slots.map EventTimeSlot.ID).Nodup → a ∈ slots → b ∈ slots →
      ∀ c ∈ (Detect srt slots opts).Conflicts, c.names a.ID b.ID →
        ∃ e ∈ detectTrace srt slots opts,
          ((e.first = a ∧ e.second = b) ∨ (e.first = b ∧ e.second = a)) ∧ e.record = c := by
    intro hid ha hb c hc hn
    obtain ⟨e, he, rfl⟩ := mem_Detect_Conflicts.1 hc
    obtain ⟨_, h1, h2, _⟩ := mem_detectTrace he
    refine ⟨e, he, ?_, rfl⟩
    unfold Conflict.names at hn
    rw [record_ids he] at hn
    simp only [List.cons.injEq, and_true] at hn
    rcases hn with hn | hn
    · exact Or.inl ⟨ids_injective hid h1 ha hn.1, ids_injective hid h2 hb hn.2⟩
    · exact Or.inr ⟨ids_injective hid h1 hb hn.1, ids_injective hid h2 ha hn.2⟩
  refine ⟨fun hbuf => ⟨?_, ?_⟩, ⟨?_, ?_⟩, ?_⟩
  · intro e he hpair
    have h := (touching_record hab he hpair).1
    omega
  · intro hid ha hb c hc hn
    obtain ⟨e, he, hpair, _⟩ := byID hid ha hb c hc hn
    have h := (touching_record hab he hpair).1
    omega
  · intro e he hpair
    obtain ⟨_, ht, ho, hr, hg⟩ := touching_record hab he hpair
    exact ⟨by rw [ht]; decide, ht, ho, hr, hg⟩
  · intro hid ha hb c hc hn
    obtain ⟨e, he, hpair, rfl⟩ := byID hid ha hb c hc hn
    obtain ⟨_, ht, ho, hr, hg⟩ := touching_record hab he hpair
    exact ⟨by rw [ht]; decide, ht, ho, hr, hg⟩
  · intro hb hno ha hbm hne hia hib
    obtain ⟨e, he, hpair⟩ := touching_emitted srt hb hno ha hbm hne hia hib hab
    obtain ⟨_, ht, ho, hr, hg⟩ := touching_record hab he hpair
    refine ⟨e.record, mem_Detect_Conflicts.2 ⟨e, he, rfl⟩, ?_, ht, ho, hg hia hib, hr⟩
    unfold Conflict.names
    rw [record_ids he]
    rcases hpair with ⟨h1, h2⟩ | ⟨h1, h2⟩
    · exact Or.inl (by rw [h1, h2])
    · exact Or.inr (by rw [h1, h2])

/-- Witness of C9 on the touching slots 09:00–10:00 and 10:00–11:00 (distinct IDs, both with
start ≤ end): with buffer 0 no record names the pair, and with buffer 15 the conflict list
contains the insufficient-buffer record with gapMinutes 0 and requiredBufferMinutes 15. -/
theorem C9_touching_pair_witness :
    slotA.End = slotB1000.Start ∧
      (∀ c ∈ (Detect insertionSliceSort [slotA, slotB1000] ⟨0⟩).Conflicts,
        ¬ c.names slotA.ID slotB1000.ID) ∧
      ∃ c ∈ (Detect insertionSliceSort [slotA, slotB1000] ⟨15⟩).Conflicts,
        c.names slotA.ID slotB1000.ID ∧ c.Type_ = "insufficient_buffer" ∧
          c.OverlapMinutes = 0 ∧ c.GapMinutes = 0 ∧ c.RequiredBufferMinutes = 15 :=
  ⟨by decide,
    ((C9_touching_pair insertionSliceSort [slotA, slotB1000] ⟨0⟩ slotA slotB1000
      (by decide)).1 (by decide)).2 (by decide) (by decide) (by decide),
    (C9_touching_pair insertionSliceSort [slotA, slotB1000] ⟨15⟩ slotA slotB1000
      (by decide)).2.2 (by decide) (by decide) (by decide) (by decide) (by decide) (by decide)
      (by decide)⟩

/-- Counterexample to C9 as stated: 09:00–10:00 ends exactly when 10:00–11:00 starts, and with
bufferMinutes = 15 `Detect` returns one record for the pair, of type "insufficient_buffer"
with gapMinutes 0. -/
theorem C9_touching_reported_with_buffer :
    slotA.End = slotB1000.Start ∧
      (Detect insertionSliceSort [slotA, slotB1000] ⟨15⟩).Conflicts =
        [⟨"insufficient_buffer", ["A", "B"], 0, 0, 15⟩] ∧
      ∃ c ∈ (Detect insertionSliceSort [slotA, slotB1000] ⟨15⟩).Conflicts,
        c.names slotA.ID slotB1000.ID := by
  decide

/-- A pair whose later slot starts at least bufferMinutes minutes after the earlier one ends
yields no insufficient-buffer record when compared in this order. -/
theorem no_buffer_record_of_gap {opts : Options} (hb : 0 < opts.BufferMinutes)
    {a b : EventTimeSlot} (hgap : b.Start - a.End ≥ opts.BufferMinutes * Minute)
    {c : Conflict} (hp : pairResult opts a b = some c) : c.Type_ ≠ "insufficient_buffer" := by
  intro ht
  obtain ⟨_, _, _, hlt⟩ := pairResult_buffer hp ht
  have hw := wrapInt64_le (opts.BufferMinutes * Minute) (by unfold Minute; omega)
  unfold bufferDuration at hlt
  unfold Time.Sub at hlt
  unfold maxInt64 minInt64 at *
  split_ifs at hlt <;> omega

/-- Claim C10: for every slot list and every bufferMinutes > 0, for two slots `x`, `y` with
`x` the earlier (`x.Start ≤ y.Start`) whose gap `y.Start - x.End` is greater than or equal to
bufferMinutes minutes (in particular equal to it), no record that `Detect` emits when it
compares `x` and `y` has type "insufficient_buffer", and when the IDs of the list are pairwise
distinct no record naming the IDs of `x` and `y` has that type; and for the two slots
09:00–10:00 and 10:20–11:00 with buffer 15 the result has no conflicts. -/
theorem C10_buffer_boundary_strict (srt : SliceSort) :
    (∀ (slots : List EventTimeSlot) (opts : Options) (x y : EventTimeSlot),
      0 < opts.BufferMinutes → x.Start ≤ y.Start →
      y.Start - x.End ≥ opts.BufferMinutes * Minute →
        (∀ e ∈ detectTrace srt slots opts,
          (e.first = x ∧ e.second = y) ∨ (e.first = y ∧ e.second = x) →
            e.record.Type_ ≠ "insufficient_buffer") ∧
        ((slots.map EventTimeSlot.ID).Nodup → x ∈ slots → y ∈ slots →
          ∀ c ∈ (Detect srt slots opts).Conflicts, c.names x.ID y.ID →
            c.Type_ ≠ "insufficient_buffer")) ∧
      ((Detect srt [slotA, slotB1020] ⟨15⟩).Conflicts = [] ∧
        (Detect srt [slotA, slotB1020] ⟨15⟩).HasConflicts = false ∧
        ∀ k : String, (Detect srt [slotA, slotB1020] ⟨15⟩).ConflictMap k = none) := by
  constructor
  · intro slots opts x y hb hxy hgap
    have key : ∀ e ∈ detectTrace srt slots opts,
        (e.first = x ∧ e.second = y) ∨ (e.first = y ∧ e.second = x) →
          e.record.Type_ ≠ "insufficient_buffer" := by
      intro e he hpair
      obtain ⟨hsub, _, _, hp⟩ := mem_detectTrace he
      rcases hpair with ⟨h1, h2⟩ | ⟨h1, h2⟩
      · rw [h1, h2] at hp
        exact no_buffer_record_of_gap hb hgap hp
      · rw [h1, h2] at hp hsub
        have hsl := pair_sublist_sorted (srt.sorted slots) hsub
        have hgap' : x.Start - y.End ≥ opts.BufferMinutes * Minute := by
          unfold slotLess at hsl
          split_ifs at hsl <;> omega
        exact no_buffer_record_of_gap hb hgap' hp
    refine ⟨key, ?_⟩
    intro hid hx hy c hc hn
    obtain ⟨e, he, rfl⟩ := mem_Detect_Conflicts.1 hc
    obtain ⟨_, h1, h2, _⟩ := mem_detectTrace he
    apply key e he
    unfold Conflict.names at hn
    rw [record_ids he] at hn
    simp only [List.cons.injEq, and_true] at hn
    rcases hn with hn | hn
    · exact Or.inl ⟨ids_injective hid h1 hx hn.1, ids_injective hid h2 hy hn.2⟩
    · exact Or.inr ⟨ids_injective hid h1 hy hn.1, ids_injective hid h2 hx hn.2⟩
  · obtain ⟨h1, h2, h3⟩ := Detect_pair srt slotA slotB1020 (by decide) ⟨15⟩
    rw [h1, h2, h3]
    refine ⟨by decide, by decide, fun k => ?_⟩
    rfl

/-- Witness of C10: 09:00–10:00 and 10:15–11:00 are exactly 15 minutes apart, and with
buffer 15 no record for them is of type "insufficient_buffer". -/
theorem C10_buffer_boundary_strict_witness :
    (⟨"B", clock 10 15, clock 11 0, false⟩ : EventTimeSlot).Start - slotA.End = 15 * Minute ∧
      ∀ c ∈ (Detect insertionSliceSort [slotA, ⟨"B", clock 10 15, clock 11 0, false⟩]
          ⟨15⟩).Conflicts,
        c.names slotA.ID "B" → c.Type_ ≠ "insufficient_buffer" :=
  ⟨by decide, ((C10_buffer_boundary_strict insertionSliceSort).1
    [slotA, ⟨"B", clock 10 15, clock 11 0, false⟩] ⟨15⟩ slotA
    ⟨"B", clock 10 15, clock 11 0, false⟩ (by decide) (by decide) (by decide)).2
    (by decide) (by decide) (by decide)⟩

/-! ## Buffer checks disabled, the summary flag, short inputs -/

/-- With distinct IDs, a record naming the IDs of two slots of the list was emitted when
these two slots were compared. -/
theorem pair_of_names {srt : SliceSort} {slots : List EventTimeSlot} {opts : Options}
    (hid : (slots.map EventTimeSlot.ID).Nodup) {e : Emission}
    (he : e ∈ detectTrace srt slots opts) {x y : EventTimeSlot} (hx : x ∈ slots)
    (hy : y ∈ slots) (hn : e.record.names x.ID y.ID) :
    (e.first = x ∧ e.second = y) ∨ (e.first = y ∧ e.second = x) := by
  obtain ⟨_, h1, h2, _⟩ := mem_detectTrace he
  unfold Conflict.names at hn
  rw [record_ids he] at hn
  simp only [List.cons.injEq, and_true] at hn
  rcases hn with hn | hn
  · exact Or.inl ⟨ids_injective hid h1 hx hn.1, ids_injective hid h2 hy hn.2⟩
  · exact Or.inr ⟨ids_injective hid h1 hy hn.1, ids_injective hid h2 hx hn.2⟩

/-- Claim C11: with bufferMinutes = 0, for every slot list `Detect` returns no record of type
"insufficient_buffer"; two distinct slots of the list give rise to a record exactly when they
overlap (stated for the record emitted when the two are compared and, for lists with
pairwise distinct IDs, for a record naming their IDs); and for the touching slots
09:00–10:00 and 10:00–11:00 the conflict list is empty and hasConflicts is false. -/
theorem C11_zero_buffer_disables_checks (srt : SliceSort) :
    (∀ slots : List EventTimeSlot, ∀ c ∈ (Detect srt slots ⟨0⟩).Conflicts,
        c.Type_ ≠ "insufficient_buffer") ∧
      (∀ (slots : List EventTimeSlot) (x y : EventTimeSlot), x ∈ slots → y ∈ slots → x ≠ y →
        ((∃ e ∈ detectTrace srt slots ⟨0⟩,
            (e.first = x ∧ e.second = y) ∨ (e.first = y ∧ e.second = x)) ↔
          (x.Start < y.End ∧ y.Start < x.End))) ∧
      (∀ (slots : List EventTimeSlot) (x y : EventTimeSlot),
        (slots.map EventTimeSlot.ID).Nodup → x ∈ slots → y ∈ slots → x ≠ y →
        ((∃ c ∈ (Detect srt slots ⟨0⟩).Conflicts, c.names x.ID y.ID) ↔
          (x.Start < y.End ∧ y.Start < x.End))) ∧
      ((Detect srt [slotA, slotB1000] ⟨0⟩).Conflicts = [] ∧
        (Detect srt [slotA, slotB1000] ⟨0⟩).HasConflicts = false) := by
  have hov : ∀ (slots : List EventTimeSlot), ∀ e ∈ detectTrace srt slots ⟨0⟩,
      (e.first.Start < e.second.End ∧ e.second.Start < e.first.End) ∧
        e.record.Type_ = "overlap" := by
    intro slots e he
    obtain ⟨_, ⟨ho, hc⟩ | ⟨_, hb, _, _⟩⟩ := pairResult_cases (mem_detectTrace he).2.2.2
    · exact ⟨ho, by rw [hc]; rfl⟩
    · exact absurd hb (by decide)
  have hpair : ∀ (slots : List EventTimeSlot) (x y : EventTimeSlot), x ∈ slots → y ∈ slots →
      x ≠ y →
      ((∃ e ∈ detectTrace srt slots ⟨0⟩,
          (e.first = x ∧ e.second = y) ∨ (e.first = y ∧ e.second = x)) ↔
        (x.Start < y.End ∧ y.Start < x.End)) := by
    intro slots x y hx hy hxy
    constructor
    · rintro ⟨e, he, hp⟩
      have ho := (hov slots e he).1
      rcases hp with ⟨h1, h2⟩ | ⟨h1, h2⟩ <;> rw [h1, h2] at ho
      · exact ho
      · exact ⟨ho.2, ho.1⟩
    · intro ho
      have hl := two_le_length_of_mem_ne hx hy hxy
      rcases pair_sublist_or ((srt.perm slots).mem_iff.2 hx) ((srt.perm slots).mem_iff.2 hy)
        hxy with hs | hs
      · exact ⟨_, overlap_emitted (by decide) hl hs ho, Or.inl ⟨rfl, rfl⟩⟩
      · exact ⟨_, overlap_emitted (by decide) hl hs ⟨ho.2, ho.1⟩, Or.inr ⟨rfl, rfl⟩⟩
  refine ⟨?_, hpair, ?_, ?_⟩
  · intro slots c hc ht
    obtain ⟨e, he, rfl⟩ := mem_Detect_Conflicts.1 hc
    rw [(hov slots e he).2] at ht
    exact absurd ht (by decide)
  · intro slots x y hid hx hy hxy
    rw [← hpair slots x y hx hy hxy]
    constructor
    · rintro ⟨c, hc, hn⟩
      obtain ⟨e, he, rfl⟩ := mem_Detect_Conflicts.1 hc
      exact ⟨e, he, pair_of_names hid he hx hy hn⟩
    · rintro ⟨e, he, hp⟩
      refine ⟨e.record, mem_Detect_Conflicts.2 ⟨e, he, rfl⟩, ?_⟩
      unfold Conflict.names
      rw [record_ids he]
      rcases hp with ⟨h1, h2⟩ | ⟨h1, h2⟩ <;> rw [h1, h2]
      · exact Or.inl rfl
      · exact Or.inr rfl
  · obtain ⟨h1, h2, _⟩ := Detect_pair srt slotA slotB1000 (by decide) ⟨0⟩
    rw [h1, h2]
    exact ⟨by decide, by decide⟩

/-- Claim C14: for every slot list and bufferMinutes, the hasConflicts field of the result of
`Detect` is true if and only if its conflict list is non-empty. -/
theorem C14_hasConflicts_iff_nonempty (srt : SliceSort) (slots : List EventTimeSlot)
    (opts : Options) :
    (Detect srt slots opts).HasConflicts = true ↔ (Detect srt slots opts).Conflicts ≠ [] := by
  unfold Detect
  split_ifs
  · simp
  · simp [List.length_pos]

/-- Claim C15: for every slot list of length 0 or 1 and every bufferMinutes, `Detect` returns
an empty conflict list, hasConflicts = false and an adjacency map without keys. -/
theorem C15_short_input_empty (srt : SliceSort) (slots : List EventTimeSlot) (opts : Options)
    (h : slots.length = 0 ∨ slots.length = 1) :
    (Detect srt slots opts).Conflicts = [] ∧ (Detect srt slots opts).HasConflicts = false ∧
      ∀ k : String, (Detect srt slots opts).ConflictMap k = none := by
  have hl : slots.length < 2 := by omega
  unfold Detect
  rw [if_pos hl]
  exact ⟨rfl, rfl, fun _ => rfl⟩

/-- Witness of C15 on the one-slot list holding 09:00–10:00, with buffer 15. -/
theorem C15_short_input_empty_witness :
    (Detect insertionSliceSort [slotA] ⟨15⟩).Conflicts = [] ∧
      (Detect insertionSliceSort [slotA] ⟨15⟩).HasConflicts = false ∧
      ∀ k : String, (Detect insertionSliceSort [slotA] ⟨15⟩).ConflictMap k = none :=
  C15_short_input_empty insertionSliceSort [slotA] ⟨15⟩ (Or.inr rfl)

/-! ## The pruned sweep and the plain pairwise comparison -/

/-- Past the pruning point the plain loop appends nothing. -/
theorem plainInnerLoop_pruned (opts : Options) (hd : 0 ≤ bufferDuration opts)
    (a : EventTimeSlot) (rest : List EventTimeSlot) (r : Result)
    (h : ∀ y ∈ rest, a.End + bufferDuration opts ≤ y.Start) :
    plainInnerLoop opts a rest r = r := by
  induction rest with
  | nil => rfl
  | cons b rest ih =>
    have hb := h b (List.mem_cons_self _ _)
    have hov : ¬ (a.Start < b.End ∧ b.Start < a.End) := by omega
    have hgap : ¬ (Time.Sub b.Start a.End ≥ 0 ∧ Time.Sub b.Start a.End < bufferDuration opts) := by
      have hw : bufferDuration opts ≤ maxInt64 := by
        unfold bufferDuration wrapInt64 maxInt64
        omega
      unfold Time.Sub
      unfold maxInt64 minInt64 at *
      split_ifs <;> omega
    simp only [plainInnerLoop, if_neg hov, if_neg hgap]
    split_ifs <;> exact ih (fun y hy => h y (List.mem_cons_of_mem _ hy))

theorem plainInnerLoop_eq (opts : Options) (hd : 0 ≤ bufferDuration opts) (a : EventTimeSlot)
    (rest : List EventTimeSlot) (hs : rest.Pairwise (fun x y => x.Start ≤ y.Start))
    (r : Result) : plainInnerLoop opts a rest r = innerLoop opts a rest r := by
  induction rest generalizing r with
  | nil => rfl
  | cons b rest ih =>
    rw [List.pairwise_cons] at hs
    by_cases hbr : b.Start > Time.Add a.End (bufferDuration opts) ∨
        b.Start = Time.Add a.End (bufferDuration opts)
    · have hall : ∀ y ∈ b :: rest, a.End + bufferDuration opts ≤ y.Start := by
        intro y hy
        unfold Time.Add at hbr
        rcases List.mem_cons.1 hy with rfl | hy
        · omega
        · have := hs.1 y hy
          omega
      rw [plainInnerLoop_pruned opts hd a (b :: rest) r hall]
      simp [innerLoop, hbr]
    · simp only [plainInnerLoop, innerLoop, if_neg hbr]
      split_ifs <;> exact ih hs.2 _

theorem plainOuterLoop_eq (opts : Options) (hd : 0 ≤ bufferDuration opts)
    (l : List EventTimeSlot) (hs : l.Pairwise (fun x y => ¬ slotLess y x)) (r : Result) :
    plainOuterLoop opts l r = outerLoop opts l r := by
  induction l generalizing r with
  | nil => rfl
  | cons a rest ih =>
    rw [List.pairwise_cons] at hs
    simp only [plainOuterLoop, outerLoop]
    rw [plainInnerLoop_eq opts hd a rest (hs.2.imp (fun hxy => slotLE_start hxy)), ih hs.2]

/-- Claim C19, as amended: for every slot list and every bufferMinutes whose buffer duration
(bufferMinutes × one minute, in the 64-bit arithmetic of `time.Duration`) is not negative,
in particular every 0 ≤ bufferMinutes ≤ 153722867, `Detect` returns the same result (conflict
list, adjacency map and flag) as the sweep that sorts the slots the same way and applies the
overlap and buffer tests to every pair `i < j` without the early-exit break. -/
theorem C19_pruned_equals_plain (srt : SliceSort) (slots : List EventTimeSlot) (opts : Options)
    (hd : 0 ≤ bufferDuration opts) : Detect srt slots opts = DetectPlain srt slots opts := by
  unfold Detect DetectPlain
  simp only [plainOuterLoop_eq opts hd (srt.run slots) (srt.sorted slots)]

/-- Witness of C19 on three slots with buffer 15. -/
theorem C19_pruned_equals_plain_witness :
    Detect insertionSliceSort [slotB1020, slotA, slotB0930] ⟨15⟩ =
      DetectPlain insertionSliceSort [slotB1020, slotA, slotB0930] ⟨15⟩ :=
  C19_pruned_equals_plain insertionSliceSort [slotB1020, slotA, slotB0930] ⟨15⟩ (by decide)

/-- Counterexample to C19 as stated: with bufferMinutes = 153722868 ≥ 0 the buffer duration
wraps to a negative value; on the overlapping slots 09:00–10:00 and 09:30–10:30 the pruned
sweep breaks at once and returns no conflict, the plain comparison returns the overlap. -/
theorem C19_pruned_differs_on_overflow :
    (0 : Int) ≤ 153722868 ∧
      (Detect insertionSliceSort [slotA, slotB0930] ⟨153722868⟩).Conflicts = [] ∧
      (DetectPlain insertionSliceSort [slotA, slotB0930] ⟨153722868⟩).Conflicts =
        [⟨"overlap", ["A", "B"], 30, 0, 0⟩] := by
  decide

/-! ## The caller's slice -/

/-- Claim C20, as amended: for every slot list and bufferMinutes, the caller's slot list
after the call holds the same slots, rearranged by the sort (by start, ties by end); it is
in the same order as before when it has fewer than two slots. -/
theorem C20_input_sorted_in_place (srt : SliceSort) (slots : List EventTimeSlot) :
    (slotsAfterDetect srt slots).Perm slots ∧
      (slotsAfterDetect srt slots).Pairwise (fun x y => ¬ slotLess y x) ∧
      (slots.length < 2 → slotsAfterDetect srt slots = slots) := by
  unfold slotsAfterDetect
  split_ifs with h
  · refine ⟨List.Perm.refl _, ?_, fun _ => rfl⟩
    match slots, h with
    | [], _ => exact List.Pairwise.nil
    | [x], _ => exact List.pairwise_singleton _ x
  · exact ⟨srt.perm slots, srt.sorted slots, fun h' => absurd h' h⟩

/-- Counterexample to C20 as stated: called on 10:00–11:00 followed by 09:00–10:00, `Detect`
leaves the caller's slice holding 09:00–10:00 followed by 10:00–11:00. -/
theorem C20_input_reordered :
    slotsAfterDetect insertionSliceSort [slotB1000, slotA] = [slotA, slotB1000] ∧
      slotsAfterDetect insertionSliceSort [slotB1000, slotA] ≠ [slotB1000, slotA] := by
  decide

/-! ## Parsing events -/

theorem eventError_eq_none {Loc Err : Type} (tp : TimePackage Loc Err) (loc : Loc)
    (e : OutputEvent) :
    eventError tp loc e = none ↔
      (if e.AllDay then
        (tp.ParseInLocation "2006-01-02" e.Start loc).toBool = true ∧
          (tp.ParseInLocation "2006-01-02" e.End loc).toBool = true
      else
        (tp.Parse RFC3339 e.Start).toBool = true ∧ (tp.Parse RFC3339 e.End).toBool = true) := by
  unfold eventError
  split_ifs <;> split <;> try split
  all_goals simp_all [Except.toBool]

/-- The loop of `ParseEventTimes`, event by event: the error is that of the first event with
one, an error comes with a `nil` slice, and without error the slice is the slots so far
followed by one slot per event, in order, with the ID and all-day flag of the event. -/
theorem parseLoop_spec {Loc Err : Type} (tp : TimePackage Loc Err) (loc : Loc)
    (events : List OutputEvent) (acc : List EventTimeSlot) :
    (parseLoop tp loc events acc).2 = (events.filterMap (eventError tp loc)).head? ∧
      ((parseLoop tp loc events acc).2 ≠ none → (parseLoop tp loc events acc).1 = none) ∧
      ((parseLoop tp loc events acc).2 = none →
        ∃ new : List EventTimeSlot, (parseLoop tp loc events acc).1 = some (acc ++ new) ∧
          List.Forall₂ (fun e s => s.ID = e.ID ∧ s.AllDay = e.AllDay) events new) := by
  induction events generalizing acc with
  | nil =>
    refine ⟨rfl, fun h => absurd rfl h, fun _ => ⟨[], by simp [parseLoop], List.Forall₂.nil⟩⟩
  | cons e rest ih =>
    have hcons : ∀ (slot : EventTimeSlot), slot.ID = e.ID → slot.AllDay = e.AllDay →
        eventError tp loc e = none →
        parseLoop tp loc (e :: rest) acc = parseLoop tp loc rest (acc ++ [slot]) →
        (parseLoop tp loc (e :: rest) acc).2 =
            ((e :: rest).filterMap (eventError tp loc)).head? ∧
          ((parseLoop tp loc (e :: rest) acc).2 ≠ none →
            (parseLoop tp loc (e :: rest) acc).1 = none) ∧
          ((parseLoop tp loc (e :: rest) acc).2 = none →
            ∃ new : List EventTimeSlot,
              (parseLoop tp loc (e :: rest) acc).1 = some (acc ++ new) ∧
              List.Forall₂ (fun e s => s.ID = e.ID ∧ s.AllDay = e.AllDay) (e :: rest) new) := by
      intro slot h1 h2 hnone heq
      obtain ⟨ih1, ih2, ih3⟩ := ih (acc ++ [slot])
      rw [heq, List.filterMap_cons, hnone]
      refine ⟨ih1, ih2, fun h => ?_⟩
      obtain ⟨new, hn1, hn2⟩ := ih3 h
      exact ⟨slot :: new, by rw [hn1]; simp, List.Forall₂.cons ⟨h1, h2⟩ hn2⟩
    have herr : ∀ (err : Err), eventError tp loc e = some err →
        parseLoop tp loc (e :: rest) acc = (none, some err) →
        (parseLoop tp loc (e :: rest) acc).2 =
            ((e :: rest).filterMap (eventError tp loc)).head? ∧
          ((parseLoop tp loc (e :: rest) acc).2 ≠ none →
            (parseLoop tp loc (e :: rest) acc).1 = none) ∧
          ((parseLoop tp loc (e :: rest) acc).2 = none →
            ∃ new : List EventTimeSlot,
              (parseLoop tp loc (e :: rest) acc).1 = some (acc ++ new) ∧
              List.Forall₂ (fun e s => s.ID = e.ID ∧ s.AllDay = e.AllDay) (e :: rest) new) := by
      intro err hsome heq
      rw [heq, List.filterMap_cons, hsome]
      exact ⟨rfl, fun _ => rfl, fun h => by simp at h⟩
    by_cases hall : e.AllDay = true
    · cases hs : tp.ParseInLocation "2006-01-02" e.Start loc with
      | error err =>
        exact herr err (by simp [eventError, hall, hs]) (by simp [parseLoop, hall, hs])
      | ok start =>
        cases he : tp.ParseInLocation "2006-01-02" e.End loc with
        | error err =>
          exact herr err (by simp [eventError, hall, hs, he]) (by simp [parseLoop, hall, hs, he])
        | ok end_ =>
          exact hcons { ID := e.ID, AllDay := e.AllDay, Start := start, End := end_ } rfl rfl
            (by simp [eventError, hall, hs, he]) (by simp [parseLoop, hall, hs, he])
    · cases hs : tp.Parse RFC3339 e.Start with
      | error err =>
        exact herr err (by simp [eventError, hall, hs]) (by simp [parseLoop, hall, hs])
      | ok start =>
        cases he : tp.Parse RFC3339 e.End with
        | error err =>
          exact herr err (by simp [eventError, hall, hs, he]) (by simp [parseLoop, hall, hs, he])
        | ok end_ =>
          exact hcons { ID := e.ID, AllDay := e.AllDay, Start := Time.In start loc,
                        End := Time.In end_ loc } rfl rfl
            (by simp [eventError, hall, hs, he]) (by simp [parseLoop, hall, hs, he])

/-- Claim C16: whenever `ParseEventTimes` succeeds on an event list (it returns no error), it
returns exactly one slot per event, in the same order, and the i-th slot carries the ID and
the all-day flag of the i-th event. -/
theorem C16_parse_preserves_order {Loc Err : Type} (tp : TimePackage Loc Err)
    (events : List OutputEvent) (loc : Loc) (hok : (ParseEventTimes tp events loc).2 = none) :
    ∃ slots : List EventTimeSlot, (ParseEventTimes tp events loc).1 = some slots ∧
      slots.length = events.length ∧
      List.Forall₂ (fun e s => s.ID = e.ID ∧ s.AllDay = e.AllDay) events slots := by
  obtain ⟨new, h1, h2⟩ := (parseLoop_spec tp loc events []).2.2 hok
  exact ⟨new, by simpa [ParseEventTimes] using h1, h2.length_eq.symm, h2⟩

/-- Witness of C16 on a timed event followed by an all-day event. -/
theorem C16_parse_preserves_order_witness :
    ∃ slots : List EventTimeSlot,
      (ParseEventTimes tableTime [eventTimed, eventAllDay] ()).1 = some slots ∧
      slots.length = [eventTimed, eventAllDay].length ∧
      List.Forall₂ (fun e s => s.ID = e.ID ∧ s.AllDay = e.AllDay)
        [eventTimed, eventAllDay] slots :=
  C16_parse_preserves_order tableTime [eventTimed, eventAllDay] () (by decide)

/-- Claim C17: `ParseEventTimes` returns an error if and only if at least one event has a
start or end string that does not parse in the format selected by its all-day flag (the
calendar date layout `2006-01-02` for all-day events, RFC3339 for timed events); whenever it
returns an error the returned slice is nil; and the error is that of the first failing event
in input order (of its start if the start fails, otherwise of its end). -/
theorem C17_parse_fails_atomically {Loc Err : Type} (tp : TimePackage Loc Err)
    (events : List OutputEvent) (loc : Loc) :
    ((ParseEventTimes tp events loc).2 ≠ none ↔
        ∃ e ∈ events,
          ¬ (if e.AllDay then
              (tp.ParseInLocation "2006-01-02" e.Start loc).toBool = true ∧
                (tp.ParseInLocation "2006-01-02" e.End loc).toBool = true
            else
              (tp.Parse RFC3339 e.Start).toBool = true ∧
                (tp.Parse RFC3339 e.End).toBool = true)) ∧
      ((ParseEventTimes tp events loc).2 ≠ none → (ParseEventTimes tp events loc).1 = none) ∧
      (ParseEventTimes tp events loc).2 = (events.filterMap (eventError tp loc)).head? := by
  obtain ⟨h1, h2, _⟩ := parseLoop_spec tp loc events []
  refine ⟨?_, h2, h1⟩
  unfold ParseEventTimes
  rw [h1]
  simp only [← eventError_eq_none]
  constructor
  · intro h
    cases hf : events.filterMap (eventError tp loc) with
    | nil => simp [hf] at h
    | cons err rest =>
      have : err ∈ events.filterMap (eventError tp loc) := by simp [hf]
      obtain ⟨e, he, hee⟩ := List.mem_filterMap.1 this
      exact ⟨e, he, by simp [hee]⟩
  · rintro ⟨e, he, hne⟩
    obtain ⟨err, herr⟩ := Option.ne_none_iff_exists'.1 hne
    have : err ∈ events.filterMap (eventError tp loc) := List.mem_filterMap.2 ⟨e, he, herr⟩
    cases hf : events.filterMap (eventError tp loc) with
    | nil => simp [hf] at this
    | cons _ _ => simp

/-- Witness of C17: a timed event, then one whose end is not a timestamp, then an all-day
event; the call returns the error of the second event and a nil slice. -/
theorem C17_parse_fails_atomically_witness :
    (ParseEventTimes tableTime [eventTimed, eventBadEnd, eventAllDay] ()).2 =
        some "parse soon" ∧
      (ParseEventTimes tableTime [eventTimed, eventBadEnd, eventAllDay] ()).1 = none :=
  ⟨by decide, (C17_parse_fails_atomically tableTime [eventTimed, eventBadEnd, eventAllDay]
    ()).2.1 (by decide)⟩

/-! ## Annotating events -/

/-- Claim C18, as amended: after `ApplyToEvents(events, result)` the list holds the same
events in the same order, each with its other fields unchanged; for every event,
conflictsWith equals the adjacency entry of `result` for the event's ID when the ID is a key
of the adjacency map, and keeps the value it had before the call when the ID is absent from
the map (so it is empty if it was empty before). -/
theorem C18_apply_annotates (events : List OutputEvent) (result : Result) :
    List.Forall₂
      (fun e e' => e'.ID = e.ID ∧ e'.Start = e.Start ∧ e'.End = e.End ∧ e'.AllDay = e.AllDay ∧
        (∀ conflicts, result.ConflictMap e.ID = some conflicts →
          e'.ConflictsWith = conflicts) ∧
        (result.ConflictMap e.ID = none → e'.ConflictsWith = e.ConflictsWith))
      events (ApplyToEvents events result) := by
  induction events with
  | nil => exact List.Forall₂.nil
  | cons e rest ih =>
    simp only [ApplyToEvents]
    refine List.Forall₂.cons ?_ ih
    cases h : result.ConflictMap e.ID <;> simp

/-- Counterexample to C18 as stated: the event `A` is annotated from a run with buffer 15, in
which it conflicts with `B`, and then from a run with buffer 0, whose adjacency map has no key
`A`; its conflictsWith still holds `B` and is not empty. -/
theorem C18_stale_annotation_kept :
    (Detect insertionSliceSort [slotA, slotB1000] ⟨0⟩).ConflictMap eventA.ID = none ∧
      (ApplyToEvents
          (ApplyToEvents [eventA] (Detect insertionSliceSort [slotA, slotB1000] ⟨15⟩))
          (Detect insertionSliceSort [slotA, slotB1000] ⟨0⟩)).map OutputEvent.ConflictsWith =
        [["B"]] := by
  decide

/-! ## Whole minutes of a duration

The `float64` value of `Duration.Minutes` and its truncation, against integer division. -/

theorem floorLog2Aux_spec : ∀ (fuel n : Nat), 0 < n → n ≤ fuel →
    2 ^ floorLog2Aux fuel n ≤ n ∧ n < 2 ^ (floorLog2Aux fuel n + 1)
  | 0, n, hn, hf => by omega
  | fuel + 1, n, hn, hf => by
    unfold floorLog2Aux
    split_ifs with h
    · simp
      omega
    · have ih := floorLog2Aux_spec fuel (n / 2) (by omega) (by omega)
      rw [pow_succ] at ih ⊢
      rw [pow_succ]
      omega

theorem floorLog2_spec (n : Nat) (hn : 0 < n) :
    2 ^ floorLog2 n ≤ n ∧ n < 2 ^ (floorLog2 n + 1) :=
  floorLog2Aux_spec n n hn (Nat.le_refl n)

theorem roundHalfEven_spec (num den : Nat) (hden : 0 < den) (m : Nat)
    (hm : m = if 2 * (num % den) > den ∨ (2 * (num % den) = den ∧ (num / den) % 2 = 1)
      then num / den + 1 else num / den) :
    num / den ≤ m ∧ 2 * (m * den) ≤ 2 * num + den ∧ 2 * num ≤ 2 * (m * den) + den := by
  have h := Nat.div_add_mod num den
  have hr := Nat.mod_lt num hden
  have h1 : (num / den + 1) * den = den * (num / den) + den := by ring
  have h2 : (num / den) * den = den * (num / den) := by ring
  split_ifs at hm with hc <;> subst hm
  · rw [h1]
    omega
  · rw [h2]
    omega

theorem exponent_bound (n d k ln ld : Nat) (hn : 2 ^ ln ≤ n) (_hd1 : 2 ^ ld ≤ d)
    (hd2 : d < 2 ^ (ld + 1)) (hk : n < d * 2 ^ k) :
    (if d * 2 ^ ln ≤ n * 2 ^ ld then ln + 1 else ln) ≤ k + ld := by
  have hpos : 0 < 2 ^ ld := by positivity
  split_ifs with hup
  · by_contra hc
    have h1 : 2 ^ (k + ld) ≤ 2 ^ ln := Nat.pow_le_pow_right (by norm_num) (by omega)
    have h2 : n * 2 ^ ld < d * 2 ^ k * 2 ^ ld := Nat.mul_lt_mul_of_pos_right hk hpos
    have h3 : d * 2 ^ k * 2 ^ ld = d * 2 ^ (k + ld) := by rw [pow_add]; ring
    have h4 : d * 2 ^ (k + ld) ≤ d * 2 ^ ln := Nat.mul_le_mul_left d h1
    omega
  · by_contra hc
    have h1 : 2 ^ (k + ld + 1) ≤ 2 ^ ln := Nat.pow_le_pow_right (by norm_num) (by omega)
    have h2 : d * 2 ^ k < 2 ^ (ld + 1) * 2 ^ k :=
      Nat.mul_lt_mul_of_pos_right hd2 (by positivity)
    have h3 : 2 ^ (ld + 1) * 2 ^ k = 2 ^ (k + ld + 1) := by rw [← pow_add]; congr 1; omega
    omega

/-- The value `roundFloat64 n d` returns for positive `n`, `d`, spelled out. -/
theorem roundFloat64_pos (n d : Nat) (hn : 0 < n) (hd : 0 < d) :
    ∃ eB m : Nat,
      eB = (if d * 2 ^ floorLog2 n ≤ n * 2 ^ floorLog2 d then floorLog2 n + 1
        else floorLog2 n) ∧
      m = (if 2 * ((n * 2 ^ (52 + (floorLog2 d + 1))) % (d * 2 ^ eB)) > d * 2 ^ eB ∨
          (2 * ((n * 2 ^ (52 + (floorLog2 d + 1))) % (d * 2 ^ eB)) = d * 2 ^ eB ∧
            ((n * 2 ^ (52 + (floorLog2 d + 1))) / (d * 2 ^ eB)) % 2 = 1)
        then (n * 2 ^ (52 + (floorLog2 d + 1))) / (d * 2 ^ eB) + 1
        else (n * 2 ^ (52 + (floorLog2 d + 1))) / (d * 2 ^ eB)) ∧
      roundFloat64 n d = (m * 2 ^ eB, 2 ^ (52 + (floorLog2 d + 1))) := by
  refine ⟨_, _, rfl, rfl, ?_⟩
  unfold roundFloat64
  rw [if_neg (by omega)]
  simp only [decide_eq_true_eq]

/-- Error bound: if `n / d < 2^k`, the rounded value differs from `n / d` by at most
`2^(k - 54)`. -/
theorem roundFloat64_err (n d k : Nat) (hn : 0 < n) (hd : 0 < d) (hk : n < d * 2 ^ k) :
    (roundFloat64 n d).2 = 2 ^ (52 + (floorLog2 d + 1)) ∧
      2 * ((roundFloat64 n d).1 * d) ≤
        2 * (n * (roundFloat64 n d).2) + d * 2 ^ (k + floorLog2 d) ∧
      2 * (n * (roundFloat64 n d).2) ≤
        2 * ((roundFloat64 n d).1 * d) + d * 2 ^ (k + floorLog2 d) := by
  obtain ⟨eB, m, heB, hm, hr⟩ := roundFloat64_pos n d hn hd
  obtain ⟨hn1, _⟩ := floorLog2_spec n hn
  obtain ⟨hd1, hd2⟩ := floorLog2_spec d hd
  have hexp : eB ≤ k + floorLog2 d := heB ▸ exponent_bound n d k _ _ hn1 hd1 hd2 hk
  have hden : 0 < d * 2 ^ eB := Nat.mul_pos hd (by positivity)
  obtain ⟨_, h1, h2⟩ := roundHalfEven_spec _ _ hden m hm
  have hle : d * 2 ^ eB ≤ d * 2 ^ (k + floorLog2 d) :=
    Nat.mul_le_mul_left d (Nat.pow_le_pow_right (by norm_num) hexp)
  have ha : m * 2 ^ eB * d = m * (d * 2 ^ eB) := by ring
  rw [hr]
  simp only
  rw [ha]
  refine ⟨trivial, ?_, ?_⟩ <;> omega

/-- Lower bound: an integer `t ≤ n / d < 2^53` stays below the rounded value. -/
theorem roundFloat64_ge (n d t : Nat) (hn : 0 < n) (hd : 0 < d) (hk : n < d * 2 ^ 53)
    (ht : t * d ≤ n) : t * (roundFloat64 n d).2 ≤ (roundFloat64 n d).1 := by
  obtain ⟨eB, m, heB, hm, hr⟩ := roundFloat64_pos n d hn hd
  obtain ⟨hn1, _⟩ := floorLog2_spec n hn
  obtain ⟨hd1, hd2⟩ := floorLog2_spec d hd
  have hexp : eB ≤ 53 + floorLog2 d := heB ▸ exponent_bound n d 53 _ _ hn1 hd1 hd2 hk
  have hden : 0 < d * 2 ^ eB := Nat.mul_pos hd (by positivity)
  obtain ⟨hq, _, _⟩ := roundHalfEven_spec _ _ hden m hm
  obtain ⟨j, hj⟩ : ∃ j, 52 + (floorLog2 d + 1) = eB + j := ⟨53 + floorLog2 d - eB, by omega⟩
  have hb : 2 ^ (52 + (floorLog2 d + 1)) = 2 ^ eB * 2 ^ j := by rw [hj, pow_add]
  have h1 : t * 2 ^ j * (d * 2 ^ eB) ≤ n * 2 ^ (52 + (floorLog2 d + 1)) := by
    rw [hb]
    calc t * 2 ^ j * (d * 2 ^ eB) = (t * d) * (2 ^ eB * 2 ^ j) := by ring
      _ ≤ n * (2 ^ eB * 2 ^ j) := Nat.mul_le_mul_right _ ht
  have h2 : t * 2 ^ j ≤ m := le_trans ((Nat.le_div_iff_mul_le hden).2 h1) hq
  rw [hr]
  simp only
  rw [hb]
  calc t * (2 ^ eB * 2 ^ j) = (t * 2 ^ j) * 2 ^ eB := by ring
    _ ≤ m * 2 ^ eB := Nat.mul_le_mul_right _ h2

theorem floorLog2_minute : floorLog2 60000000000 = 35 := by decide

theorem floorLog2_one : floorLog2 1 = 0 := by decide

theorem floorLog2_two_pow_88 : floorLog2 309485009821345068724781056 = 88 := by decide

/-- The sum `float64(min) + q` truncates to `min` when it is below `2^k` and `q` leaves
enough room below 1; `k` is 18 or 28 in the two uses. -/
theorem minutesNat_eq_of_bounds (d : Nat)
    (h : d < 262144 * 60000000000 ∨ (d % 1000000000 = 0 ∧ d ≤ 9223372036854775808)) :
    minutesNat d = d / 60000000000 := by
  unfold minutesNat
  simp only
  have hdm := Nat.div_add_mod d 60000000000
  have hns : d % 60000000000 < 60000000000 := Nat.mod_lt _ (by norm_num)
  generalize hmn : d / 60000000000 = mn at *
  generalize hnsec : d % 60000000000 = ns at *
  have hmn28 : mn < 268435456 := by omega
  rcases Nat.eq_zero_or_pos ns with h0 | hpos
  · subst h0
    have hq : roundFloat64 0 60000000000 = (0, 1) := by simp [roundFloat64]
    rw [hq]
    simp only [Nat.mul_one, Nat.add_zero]
    rcases Nat.eq_zero_or_pos mn with hm0 | hmpos
    · subst hm0
      simp [roundFloat64]
    · obtain ⟨e1, e2, _⟩ := roundFloat64_err mn 1 28 hmpos (by norm_num) (by norm_num; omega)
      have g := roundFloat64_ge mn 1 mn hmpos (by norm_num) (by norm_num; omega) (by omega)
      rw [floorLog2_one] at e1 e2
      rw [e1] at e2 g ⊢
      generalize (roundFloat64 mn 1).1 = s1 at *
      norm_num at e2 g ⊢
      omega
  · obtain ⟨q2, q1le, _⟩ := roundFloat64_err ns 60000000000 0 hpos (by norm_num)
      (by norm_num; omega)
    rw [floorLog2_minute] at q2 q1le
    rw [q2] at q1le ⊢
    generalize (roundFloat64 ns 60000000000).1 = q1 at *
    norm_num at q1le ⊢
    rcases Nat.eq_zero_or_pos (mn * 309485009821345068724781056 + q1) with hz | hnpos
    · rw [hz]
      have : mn = 0 := by omega
      subst this
      simp [roundFloat64]
    · have g := roundFloat64_ge (mn * 309485009821345068724781056 + q1)
        309485009821345068724781056 mn hnpos (by norm_num) (by norm_num; omega) (by omega)
      rcases h with hA | hB
      · obtain ⟨s2, sle, _⟩ := roundFloat64_err (mn * 309485009821345068724781056 + q1)
          309485009821345068724781056 18 hnpos (by norm_num) (by norm_num; omega)
        rw [floorLog2_two_pow_88] at s2 sle
        rw [s2] at sle g ⊢
        generalize (roundFloat64 (mn * 309485009821345068724781056 + q1)
          309485009821345068724781056).1 = s1 at *
        norm_num at sle g ⊢
        omega
      · obtain ⟨s2, sle, _⟩ := roundFloat64_err (mn * 309485009821345068724781056 + q1)
          309485009821345068724781056 28 hnpos (by norm_num) (by norm_num; omega)
        rw [floorLog2_two_pow_88] at s2 sle
        rw [s2] at sle g ⊢
        generalize (roundFloat64 (mn * 309485009821345068724781056 + q1)
          309485009821345068724781056).1 = s1 at *
        norm_num at sle g ⊢
        omega

/-- For a duration shorter than 2^18 = 262144 minutes, or a whole number of seconds within
the range of `time.Duration`, `int(d.Minutes())` is `d` truncated to whole minutes. -/
theorem Duration_Minutes_eq_tdiv (d : Int)
    (h : (-(262144 * Minute) < d ∧ d < 262144 * Minute) ∨
      (d % 1000000000 = 0 ∧ minInt64 ≤ d ∧ d ≤ maxInt64)) :
    Duration.Minutes d = d.tdiv Minute := by
  unfold Minute minInt64 maxInt64 at *
  have hnat : minutesNat d.natAbs = d.natAbs / 60000000000 := by
    apply minutesNat_eq_of_bounds
    rcases h with h | h
    · left
      omega
    · right
      omega
  unfold Duration.Minutes
  rw [hnat]
  rcases Int.eq_nat_or_neg d with ⟨n, rfl | rfl⟩
  · have h0 : ¬ ((n : Int) < 0) := by omega
    rw [if_neg h0, Int.natAbs_ofNat]
    rw [Int.tdiv_eq_ediv (by omega) (by norm_num)]
    norm_cast
  · rw [Int.natAbs_neg, Int.natAbs_ofNat, Int.neg_tdiv,
      Int.tdiv_eq_ediv (by omega) (by norm_num)]
    split_ifs with hneg
    · norm_cast
    · have hn0 : n = 0 := by omega
      subst hn0
      simp

/-! ## The minute fields -/

theorem intersection_comm (a b : EventTimeSlot) : intersection a b = intersection b a := by
  unfold intersection
  rw [min_comm, max_comm]

theorem overlapConflict_minutes (a b : EventTimeSlot)
    (h : (-(262144 * Minute) < intersection a b ∧ intersection a b < 262144 * Minute) ∨
      (intersection a b % 1000000000 = 0 ∧ minInt64 ≤ intersection a b ∧
        intersection a b ≤ maxInt64)) :
    (overlapConflict a b).OverlapMinutes = (intersection a b).tdiv Minute := by
  have hsub : Time.Sub (if b.End < a.End then b.End else a.End)
      (if b.Start > a.Start then b.Start else a.Start) = intersection a b := by
    have hmin : (if b.End < a.End then b.End else a.End) = min a.End b.End := by
      rw [min_def]
      split_ifs <;> omega
    have hmax : (if b.Start > a.Start then b.Start else a.Start) = max a.Start b.Start := by
      rw [max_def]
      split_ifs <;> omega
    rw [hmin, hmax]
    unfold intersection at h ⊢
    unfold Time.Sub
    unfold Minute minInt64 maxInt64 at *
    split_ifs <;> omega
  unfold overlapConflict
  simp only
  rw [hsub]
  exact Duration_Minutes_eq_tdiv _ h

/-- Claim C12, as amended: for every record of type "overlap" that `Detect` emits for slots
`a` and `b` whose intersection `min(a.End, b.End) - max(a.Start, b.Start)` is shorter than
2^18 = 262144 minutes, or is a whole number of seconds within the range of `time.Duration`,
overlapMinutes equals the intersection truncated to whole minutes (stated for the record
emitted when the two slots are compared and, for lists with pairwise distinct IDs, for a
record naming their IDs); and for the slots 09:00–10:00 and 09:30–10:30 with buffer 0 the
result is exactly one conflict, of type "overlap", with overlapMinutes = 30. -/
theorem C12_overlap_minutes (srt : SliceSort) :
    (∀ (slots : List EventTimeSlot) (opts : Options), ∀ e ∈ detectTrace srt slots opts,
      e.record.Type_ = "overlap" →
      ((-(262144 * Minute) < intersection e.first e.second ∧
          intersection e.first e.second < 262144 * Minute) ∨
        (intersection e.first e.second % 1000000000 = 0 ∧
          minInt64 ≤ intersection e.first e.second ∧
          intersection e.first e.second ≤ maxInt64)) →
      e.record.OverlapMinutes = (intersection e.first e.second).tdiv Minute) ∧
    (∀ (slots : List EventTimeSlot) (opts : Options) (x y : EventTimeSlot),
      (slots.map EventTimeSlot.ID).Nodup → x ∈ slots → y ∈ slots →
      ∀ c ∈ (Detect srt slots opts).Conflicts, c.Type_ = "overlap" → c.names x.ID y.ID →
      ((-(262144 * Minute) < intersection x y ∧ intersection x y < 262144 * Minute) ∨
        (intersection x y % 1000000000 = 0 ∧ minInt64 ≤ intersection x y ∧
          intersection x y ≤ maxInt64)) →
      c.OverlapMinutes = (intersection x y).tdiv Minute) ∧
    (Detect srt [slotA, slotB0930] ⟨0⟩).Conflicts = [⟨"overlap", ["A", "B"], 30, 0, 0⟩] := by
  have key : ∀ (slots : List EventTimeSlot) (opts : Options),
      ∀ e ∈ detectTrace srt slots opts, e.record.Type_ = "overlap" →
      ((-(262144 * Minute) < intersection e.first e.second ∧
          intersection e.first e.second < 262144 * Minute) ∨
        (intersection e.first e.second % 1000000000 = 0 ∧
          minInt64 ≤ intersection e.first e.second ∧
          intersection e.first e.second ≤ maxInt64)) →
      e.record.OverlapMinutes = (intersection e.first e.second).tdiv Minute := by
    intro slots opts e he ht hD
    obtain ⟨_, ⟨_, hc⟩ | ⟨_, _, _, hc⟩⟩ := pairResult_cases (mem_detectTrace he).2.2.2
    · rw [hc]
      exact overlapConflict_minutes _ _ hD
    · rw [hc] at ht
      simp [bufferConflict] at ht
  refine ⟨key, ?_, ?_⟩
  · intro slots opts x y hid hx hy c hc ht hn hD
    obtain ⟨e, he, rfl⟩ := mem_Detect_Conflicts.1 hc
    rcases pair_of_names hid he hx hy hn with ⟨h1, h2⟩ | ⟨h1, h2⟩
    · have := key slots opts e he ht (by rw [h1, h2]; exact hD)
      rw [this, h1, h2]
    · have := key slots opts e he ht (by rw [h1, h2, intersection_comm]; exact hD)
      rw [this, h1, h2, intersection_comm]
  · rw [(Detect_pair srt slotA slotB0930 (by decide) ⟨0⟩).1]
    decide

/-- Witness of C12 on the slots 09:00–10:00 and 09:30–10:30 with buffer 15, whose
intersection is 30 minutes. -/
theorem C12_overlap_minutes_witness :
    intersection slotA slotB0930 = 30 * Minute ∧
      ∀ c ∈ (Detect insertionSliceSort [slotA, slotB0930] ⟨15⟩).Conflicts,
        c.Type_ = "overlap" → c.names slotA.ID slotB0930.ID →
          c.OverlapMinutes = (intersection slotA slotB0930).tdiv Minute :=
  ⟨by decide, fun c hc ht hn => (C12_overlap_minutes insertionSliceSort).2.1
    [slotA, slotB0930] ⟨15⟩ slotA slotB0930 (by decide) (by decide) (by decide) c hc ht hn
    (by decide)⟩

set_option maxRecDepth 100000 in
/-- Counterexample to C12 as stated, on two inputs with buffer 0. The slots 0–262145 min and
1 ns–262146 min intersect for 262144 minutes and 59.999999999 seconds, which truncates to
262144 minutes; the `float64` sum in `Duration.Minutes` rounds to 262145.0 and the record
carries overlapMinutes = 262145. Two slots sharing their first 10^19 ns (about 317 years)
intersect for 166666666 whole minutes; `Time.Sub` saturates at the largest `time.Duration`
and the record carries overlapMinutes = 153722867. -/
theorem C12_overlap_minutes_off :
    ((Detect insertionSliceSort [slotLongA, slotLongB] ⟨0⟩).Conflicts =
        [⟨"overlap", ["A", "B"], 262145, 0, 0⟩] ∧
      (intersection slotLongA slotLongB).tdiv Minute = 262144) ∧
    ((Detect insertionSliceSort [slotCenturiesA, slotCenturiesB] ⟨0⟩).Conflicts =
        [⟨"overlap", ["A", "B"], 153722867, 0, 0⟩] ∧
      (intersection slotCenturiesA slotCenturiesB).tdiv Minute = 166666666) := by
  decide

/-- The fields of an insufficient-buffer record, for the slots `a` (sorted earlier) and `b`
compared: requiredBufferMinutes is the configured bufferMinutes, the gap `b.Start - a.End`
is at least 0 and below bufferMinutes minutes, gapMinutes is at least 0, and when the gap is
shorter than 2^18 = 262144 minutes or a whole number of seconds, gapMinutes is the gap
truncated to whole minutes and is below requiredBufferMinutes. For 09:00–10:00 with
10:00–11:00, and with 10:10–11:00, buffer 15, the result is exactly one such record, with
gapMinutes 0 and 10. -/
theorem buffer_record_fields (srt : SliceSort) :
    (∀ (slots : List EventTimeSlot) (opts : Options), ∀ e ∈ detectTrace srt slots opts,
      e.record.Type_ = "insufficient_buffer" →
      e.record.RequiredBufferMinutes = opts.BufferMinutes ∧ 0 ≤ e.record.GapMinutes ∧
        0 ≤ e.second.Start - e.first.End ∧
        e.second.Start - e.first.End < opts.BufferMinutes * Minute ∧
        ((e.second.Start - e.first.End < 262144 * Minute ∨
            (e.second.Start - e.first.End) % 1000000000 = 0) →
          e.record.GapMinutes = (e.second.Start - e.first.End).tdiv Minute ∧
            e.record.GapMinutes < e.record.RequiredBufferMinutes)) ∧
    (Detect srt [slotA, slotB1000] ⟨15⟩).Conflicts =
      [⟨"insufficient_buffer", ["A", "B"], 0, 0, 15⟩] ∧
    (Detect srt [slotA, slotB1010] ⟨15⟩).Conflicts =
      [⟨"insufficient_buffer", ["A", "B"], 0, 10, 15⟩] := by
  refine ⟨?_, ?_, ?_⟩
  · intro slots opts e he ht
    have hp := (mem_detectTrace he).2.2.2
    obtain ⟨_, hb, hg0, hg1⟩ := pairResult_buffer hp ht
    obtain ⟨_, ⟨_, hc⟩ | ⟨_, _, _, hc⟩⟩ := pairResult_cases hp
    · rw [hc] at ht
      simp [overlapConflict] at ht
    · have hw := wrapInt64_le (opts.BufferMinutes * Minute) (by unfold Minute; omega)
      have hsub : Time.Sub e.second.Start e.first.End = e.second.Start - e.first.End ∧
          0 ≤ e.second.Start - e.first.End ∧
          e.second.Start - e.first.End < opts.BufferMinutes * Minute ∧
          e.second.Start - e.first.End ≤ maxInt64 := by
        unfold bufferDuration at hg1
        unfold Time.Sub at hg0 hg1 ⊢
        unfold maxInt64 minInt64 at *
        split_ifs at hg0 hg1 ⊢ <;> omega
      obtain ⟨hs, h0, h1, h2⟩ := hsub
      have hgm : e.record.GapMinutes = Duration.Minutes (e.second.Start - e.first.End) := by
        rw [hc]
        simp only [bufferConflict]
        rw [hs]
      have hreq : e.record.RequiredBufferMinutes = opts.BufferMinutes := by
        rw [hc]
        rfl
      refine ⟨hreq, ?_, h0, h1, ?_⟩
      · rw [hgm]
        unfold Duration.Minutes
        split_ifs <;> omega
      · intro hcond
        have heq := Duration_Minutes_eq_tdiv (e.second.Start - e.first.End) (by
          unfold Minute minInt64 maxInt64 at *
          rcases hcond with h | h
          · left
            omega
          · right
            omega)
        rw [hgm, heq, hreq, Int.tdiv_eq_ediv h0 (by unfold Minute; norm_num)]
        refine ⟨rfl, ?_⟩
        unfold Minute at *
        omega
  · rw [(Detect_pair srt slotA slotB1000 (by decide) ⟨15⟩).1]
    decide
  · rw [(Detect_pair srt slotA slotB1010 (by decide) ⟨15⟩).1]
    decide

set_option maxRecDepth 100000 in
/-- Claim C13 at a failing input: with bufferMinutes = 262145 and a gap of 262144 minutes and
59.999999999 seconds between the first minute after instant 0 and the next slot, `Detect`
returns one "insufficient_buffer" record whose gapMinutes is 262145, although the gap
truncates to 262144 whole minutes, so that gapMinutes equals requiredBufferMinutes instead of
staying below it. -/
theorem C13_gap_minutes_rounded_up :
    (Detect insertionSliceSort [slotGapA, slotGapB] ⟨262145⟩).Conflicts =
        [⟨"insufficient_buffer", ["A", "B"], 0, 262145, 262145⟩] ∧
      (slotGapB.Start - slotGapA.End).tdiv Minute = 262144 ∧
      slotGapB.Start - slotGapA.End < 262145 * Minute := by
  decide

/-! ## The instants of parsed slots -/

/-- Without error, each slot returned by the loop of `ParseEventTimes` carries the instants
that the start and end strings of its event parse to. -/
theorem parseLoop_values {Loc Err : Type} (tp : TimePackage Loc Err) (loc : Loc)
    (events : List OutputEvent) (acc : List EventTimeSlot)
    (hok : (parseLoop tp loc events acc).2 = none) :
    ∃ new : List EventTimeSlot, (parseLoop tp loc events acc).1 = some (acc ++ new) ∧
      List.Forall₂ (fun e s =>
        if e.AllDay then
          tp.ParseInLocation "2006-01-02" e.Start loc = .ok s.Start ∧
            tp.ParseInLocation "2006-01-02" e.End loc = .ok s.End
        else
          tp.Parse RFC3339 e.Start = .ok s.Start ∧ tp.Parse RFC3339 e.End = .ok s.End)
        events new := by
  induction events generalizing acc with
  | nil => exact ⟨[], by simp [parseLoop], List.Forall₂.nil⟩
  | cons e rest ih =>
    by_cases hall : e.AllDay = true
    · cases hs : tp.ParseInLocation "2006-01-02" e.Start loc with
      | error err => simp [parseLoop, hall, hs] at hok
      | ok start =>
        cases he : tp.ParseInLocation "2006-01-02" e.End loc with
        | error err => simp [parseLoop, hall, hs, he] at hok
        | ok end_ =>
          have heq : parseLoop tp loc (e :: rest) acc = parseLoop tp loc rest
              (acc ++ [{ ID := e.ID, AllDay := e.AllDay, Start := start, End := end_ }]) := by
            simp [parseLoop, hall, hs, he]
          rw [heq] at hok ⊢
          obtain ⟨new, h1, h2⟩ := ih _ hok
          refine ⟨{ ID := e.ID, AllDay := e.AllDay, Start := start, End := end_ } :: new,
            by rw [h1]; simp, List.Forall₂.cons ?_ h2⟩
          simp [hall, hs, he]
    · cases hs : tp.Parse RFC3339 e.Start with
      | error err => simp [parseLoop, hall, hs] at hok
      | ok start =>
        cases he : tp.Parse RFC3339 e.End with
        | error err => simp [parseLoop, hall, hs, he] at hok
        | ok end_ =>
          have heq : parseLoop tp loc (e :: rest) acc = parseLoop tp loc rest
              (acc ++ [{ ID := e.ID, AllDay := e.AllDay, Start := Time.In start loc,
                         End := Time.In end_ loc }]) := by
            simp [parseLoop, hall, hs, he]
          rw [heq] at hok ⊢
          obtain ⟨new, h1, h2⟩ := ih _ hok
          refine ⟨{ ID := e.ID, AllDay := e.AllDay, Start := Time.In start loc,
                    End := Time.In end_ loc } :: new,
            by rw [h1]; simp, List.Forall₂.cons ?_ h2⟩
          simp [hall, hs, he, Time.In]

/-- Claim C21, as amended: `ParseEventTimes` does not check start ≤ end. For every event list
on which it succeeds, it returns one slot per event, in order, whose start and end are the
instants that the start and end strings of the event parse to in the format its all-day flag
selects; hence a returned slot has start ≤ end exactly when the end string of its event does
not parse to an earlier instant than its start string. -/
theorem C21_parsed_instants (Loc Err : Type) (tp : TimePackage Loc Err)
    (events : List OutputEvent) (loc : Loc) (hok : (ParseEventTimes tp events loc).2 = none) :
    ∃ slots : List EventTimeSlot, (ParseEventTimes tp events loc).1 = some slots ∧
      List.Forall₂ (fun e s =>
        if e.AllDay then
          tp.ParseInLocation "2006-01-02" e.Start loc = .ok s.Start ∧
            tp.ParseInLocation "2006-01-02" e.End loc = .ok s.End
        else
          tp.Parse RFC3339 e.Start = .ok s.Start ∧ tp.Parse RFC3339 e.End = .ok s.End)
        events slots := by
  obtain ⟨new, h1, h2⟩ := parseLoop_values tp loc events [] hok
  exact ⟨new, by simpa [ParseEventTimes] using h1, h2⟩

/-- Witness of C21 on a timed event followed by an all-day event. -/
theorem C21_parsed_instants_witness :
    ∃ slots : List EventTimeSlot,
      (ParseEventTimes tableTime [eventTimed, eventAllDay] ()).1 = some slots ∧
      List.Forall₂ (fun e s =>
        if e.AllDay then
          tableTime.ParseInLocation "2006-01-02" e.Start () = .ok s.Start ∧
            tableTime.ParseInLocation "2006-01-02" e.End () = .ok s.End
        else
          tableTime.Parse RFC3339 e.Start = .ok s.Start ∧
            tableTime.Parse RFC3339 e.End = .ok s.End)
        [eventTimed, eventAllDay] slots :=
  C21_parsed_instants Unit String tableTime [eventTimed, eventAllDay] () (by decide)

/-- Counterexample to C21 as stated: on one timed event whose start string is 10:00 and whose
end string is 09:00, `ParseEventTimes` succeeds and returns a slot with start 10:00 and end
09:00. -/
theorem C21_reversed_event_accepted :
    (ParseEventTimes tableTime [eventReversed] ()).2 = none ∧
      (ParseEventTimes tableTime [eventReversed] ()).1 =
        some [⟨"e4", clock 10 0, clock 9 0, false⟩] ∧
      ¬ (clock 10 0 ≤ clock 9 0) := by
  decide

/-! ## Overlaps and their intersection -/

theorem overlap_intersection {a b : EventTimeSlot} (ha : a.Start ≤ a.End)
    (hb : b.Start ≤ b.End) (ho : a.Start < b.End ∧ b.Start < a.End) :
    0 ≤ intersection a b ∧ (a.Start < a.End → b.Start < b.End → 0 < intersection a b) := by
  unfold intersection
  rw [min_def, max_def]
  split_ifs <;> constructor <;> intros <;> omega

/-- Claim C22, as amended: for every slot list whose slots satisfy start ≤ end, every pair
`a`, `b` that `Detect` reports as type "overlap" has
`min(a.End, b.End) - max(a.Start, b.Start) ≥ 0`, and `> 0` when both slots have a positive
duration (start < end); stated for the record emitted when the two slots are compared and, for
lists with pairwise distinct IDs, for a record naming their IDs. -/
theorem C22_overlap_intersection (srt : SliceSort) (slots : List EventTimeSlot)
    (opts : Options) (hinv : ∀ s ∈ slots, s.Start ≤ s.End) :
    (∀ e ∈ detectTrace srt slots opts, e.record.Type_ = "overlap" →
        0 ≤ intersection e.first e.second ∧
          (e.first.Start < e.first.End → e.second.Start < e.second.End →
            0 < intersection e.first e.second)) ∧
      ((slots.map EventTimeSlot.ID).Nodup → ∀ x ∈ slots, ∀ y ∈ slots,
        ∀ c ∈ (Detect srt slots opts).Conflicts, c.Type_ = "overlap" → c.names x.ID y.ID →
          0 ≤ intersection x y ∧
            (x.Start < x.End → y.Start < y.End → 0 < intersection x y)) := by
  have key : ∀ e ∈ detectTrace srt slots opts, e.record.Type_ = "overlap" →
      0 ≤ intersection e.first e.second ∧
        (e.first.Start < e.first.End → e.second.Start < e.second.End →
          0 < intersection e.first e.second) := by
    intro e he ht
    obtain ⟨_, h1, h2, hp⟩ := mem_detectTrace he
    exact overlap_intersection (hinv _ h1) (hinv _ h2) (pairResult_overlap hp ht)
  refine ⟨key, ?_⟩
  intro hid x hx y hy c hc ht hn
  obtain ⟨e, he, rfl⟩ := mem_Detect_Conflicts.1 hc
  have hk := key e he ht
  rcases pair_of_names hid he hx hy hn with ⟨h1, h2⟩ | ⟨h1, h2⟩
  · rw [h1, h2] at hk
    exact hk
  · rw [h1, h2, intersection_comm] at hk
    exact ⟨hk.1, fun hx' hy' => hk.2 hy' hx'⟩

/-- Witness of C22 on the slots 09:00–10:00 and 09:30–10:30 with buffer 0. -/
theorem C22_overlap_intersection_witness :
    (∀ s ∈ [slotA, slotB0930], s.Start ≤ s.End) ∧
      ∀ c ∈ (Detect insertionSliceSort [slotA, slotB0930] ⟨0⟩).Conflicts,
        c.Type_ = "overlap" → c.names slotA.ID slotB0930.ID →
          0 ≤ intersection slotA slotB0930 ∧
            (slotA.Start < slotA.End → slotB0930.Start < slotB0930.End →
              0 < intersection slotA slotB0930) :=
  ⟨by decide, (C22_overlap_intersection insertionSliceSort [slotA, slotB0930] ⟨0⟩
    (by decide)).2 (by decide) slotA (by decide) slotB0930 (by decide)⟩

/-- Counterexample to C22 as stated: the zero-length slot at 09:30 lies inside 09:00–10:00;
both satisfy start ≤ end, `Detect` reports the pair as "overlap" with overlapMinutes 0, and
their intersection is 0, not positive. -/
theorem C22_zero_length_overlap :
    (∀ s ∈ [slotA, slotInstant], s.Start ≤ s.End) ∧
      (Detect insertionSliceSort [slotA, slotInstant] ⟨0⟩).Conflicts =
        [⟨"overlap", ["A", "Z"], 0, 0, 0⟩] ∧
      intersection slotA slotInstant = 0 := by
  decide

/-! ## The shape of the records -/

/-- Claim C25: every conflict record `Detect` returns has type "overlap" or
"insufficient_buffer" and exactly two event IDs, the IDs of two input slots; a record of type
"overlap" has gapMinutes and requiredBufferMinutes zero (unset), and a record of type
"insufficient_buffer" has overlapMinutes zero (unset). -/
theorem C25_record_shape (srt : SliceSort) (slots : List EventTimeSlot) (opts : Options) :
    ∀ c ∈ (Detect srt slots opts).Conflicts,
      (c.Type_ = "overlap" ∨ c.Type_ = "insufficient_buffer") ∧
        c.EventIDs.length = 2 ∧
        (∃ a ∈ slots, ∃ b ∈ slots, c.EventIDs = [a.ID, b.ID]) ∧
        (c.Type_ = "overlap" → c.GapMinutes = 0 ∧ c.RequiredBufferMinutes = 0) ∧
        (c.Type_ = "insufficient_buffer" → c.OverlapMinutes = 0) := by
  intro c hc
  obtain ⟨e, he, rfl⟩ := mem_Detect_Conflicts.1 hc
  obtain ⟨_, h1, h2, hp⟩ := mem_detectTrace he
  have hids := pairResult_ids hp
  refine ⟨?_, by rw [hids]; rfl, ⟨_, h1, _, h2, hids⟩, ?_, ?_⟩
  · obtain ⟨_, ⟨_, hcc⟩ | ⟨_, _, _, hcc⟩⟩ := pairResult_cases hp
    · exact Or.inl (by rw [hcc]; rfl)
    · exact Or.inr (by rw [hcc]; rfl)
  · intro ht
    obtain ⟨_, ⟨_, hcc⟩ | ⟨_, _, _, hcc⟩⟩ := pairResult_cases hp
    · rw [hcc]
      exact ⟨rfl, rfl⟩
    · rw [hcc] at ht
      simp [bufferConflict] at ht
  · intro ht
    obtain ⟨_, ⟨_, hcc⟩ | ⟨_, _, _, hcc⟩⟩ := pairResult_cases hp
    · rw [hcc] at ht
      simp [overlapConflict] at ht
    · rw [hcc]
      rfl

/-- Witness of C25 on the record for the touching slots 09:00–10:00 and 10:00–11:00 with
buffer 15. -/
theorem C25_record_shape_witness :
    recordTouching ∈ (Detect insertionSliceSort [slotA, slotB1000] ⟨15⟩).Conflicts ∧
      ((recordTouching.Type_ = "overlap" ∨ recordTouching.Type_ = "insufficient_buffer") ∧
        recordTouching.EventIDs.length = 2 ∧
        (∃ a ∈ [slotA, slotB1000], ∃ b ∈ [slotA, slotB1000],
          recordTouching.EventIDs = [a.ID, b.ID]) ∧
        (recordTouching.Type_ = "overlap" →
          recordTouching.GapMinutes = 0 ∧ recordTouching.RequiredBufferMinutes = 0) ∧
        (recordTouching.Type_ = "insufficient_buffer" → recordTouching.OverlapMinutes = 0)) :=
  ⟨by decide, C25_record_shape insertionSliceSort [slotA, slotB1000] ⟨15⟩ recordTouching
    (by decide)⟩

/-! ## The frame of `ApplyToEvents` -/

theorem applyLoop_eq (done events : List OutputEvent) (result : Result) :
    applyLoop done events result = (done ++ ApplyToEvents events result, result) := by
  induction events generalizing done with
  | nil => simp [applyLoop, ApplyToEvents]
  | cons e rest ih =>
    simp only [applyLoop, ApplyToEvents]
    cases h : result.ConflictMap e.ID <;> simp [ih]

/-- Claim C26: for every event list and every result, `ApplyToEvents` terminates; the list
after the call has the same length and order, every field of every event other than
conflictsWith is unchanged, and the result passed in is unchanged. -/
theorem C26_apply_frame (events : List OutputEvent) (result : Result) :
    (applyLoop [] events result).1 = ApplyToEvents events result ∧
      (applyLoop [] events result).2 = result ∧
      (ApplyToEvents events result).length = events.length ∧
      List.Forall₂
        (fun e e' => e'.ID = e.ID ∧ e'.Start = e.Start ∧ e'.End = e.End ∧
          e'.AllDay = e.AllDay)
        events (ApplyToEvents events result) := by
  have hf : List.Forall₂
      (fun e e' => e'.ID = e.ID ∧ e'.Start = e.Start ∧ e'.End = e.End ∧ e'.AllDay = e.AllDay)
      events (ApplyToEvents events result) := by
    induction events with
    | nil => exact List.Forall₂.nil
    | cons e rest ih =>
      simp only [ApplyToEvents]
      refine List.Forall₂.cons ?_ ih
      cases h : result.ConflictMap e.ID <;> simp
  rw [applyLoop_eq]
  exact ⟨by simp, rfl, hf.length_eq.symm, hf⟩

/-! ## Negative buffers -/

/-- Claim C27 at a failing input: for the overlapping slots 09:00–10:00 and 09:30–10:30,
`Detect` with bufferMinutes = -60 returns no conflict and hasConflicts = false, while with
bufferMinutes = 0 it returns the overlap of 30 minutes: the pruning test adds the negative
buffer to `a.End` and breaks before the overlap test. -/
theorem C27_negative_buffer_hides_overlap :
    (Detect insertionSliceSort [slotA, slotB0930] ⟨-60⟩).Conflicts = [] ∧
      (Detect insertionSliceSort [slotA, slotB0930] ⟨-60⟩).HasConflicts = false ∧
      (Detect insertionSliceSort [slotA, slotB0930] ⟨0⟩).Conflicts =
        [⟨"overlap", ["A", "B"], 30, 0, 0⟩] ∧
      (Detect insertionSliceSort [slotA, slotB0930] ⟨0⟩).HasConflicts = true ∧
      (slotA.Start < slotB0930.End ∧ slotB0930.Start < slotA.End) := by
  decide

/-! ## Discovery order -/

theorem innerTraceAt_records (opts : Options) (a : EventTimeSlot) (i j : Nat)
    (rest : List EventTimeSlot) :
    (innerTraceAt opts a i j rest).map (fun t => t.2.2) =
      (innerTrace opts a rest).map Emission.record := by
  induction rest generalizing j with
  | nil => rfl
  | cons b rest ih =>
    simp only [innerTraceAt, innerTrace]
    split_ifs <;> simp [ih]

theorem outerTraceAt_records (opts : Options) (i : Nat) (l : List EventTimeSlot) :
    (outerTraceAt opts i l).map (fun t => t.2.2) = (outerTrace opts l).map Emission.record := by
  induction l generalizing i with
  | nil => rfl
  | cons a rest ih =>
    simp only [outerTraceAt, outerTrace, List.map_append, innerTraceAt_records, ih]

theorem mem_innerTraceAt {opts : Options} {a : EventTimeSlot} {i j : Nat}
    {rest : List EventTimeSlot} {t : Nat × Nat × Conflict}
    (h : t ∈ innerTraceAt opts a i j rest) :
    t.1 = i ∧ j ≤ t.2.1 ∧
      ∃ b, rest[t.2.1 - j]? = some b ∧ pairResult opts a b = some t.2.2 := by
  induction rest generalizing j with
  | nil => simp [innerTraceAt] at h
  | cons b rest ih =>
    have hstep : t ∈ innerTraceAt opts a i (j + 1) rest →
        t.1 = i ∧ j ≤ t.2.1 ∧
          ∃ b', (b :: rest)[t.2.1 - j]? = some b' ∧ pairResult opts a b' = some t.2.2 := by
      intro ht
      obtain ⟨h1, h2, b', h3, h4⟩ := ih ht
      refine ⟨h1, by omega, b', ?_, h4⟩
      have : t.2.1 - j = (t.2.1 - (j + 1)) + 1 := by omega
      rw [this, List.getElem?_cons_succ]
      exact h3
    simp only [innerTraceAt] at h
    split_ifs at h with h1 h2 h3 h4
    · simp at h
    · rcases List.mem_cons.1 h with rfl | h
      · exact ⟨rfl, le_refl _, b, by simp, by simp [pairResult, h1, h2]⟩
      · exact hstep h
    · rcases List.mem_cons.1 h with rfl | h
      · exact ⟨rfl, le_refl _, b, by simp, by simp [pairResult, h1, h2, h3, h4]⟩
      · exact hstep h
    · exact hstep h
    · exact hstep h

theorem innerTraceAt_increasing (opts : Options) (a : EventTimeSlot) (i j : Nat)
    (rest : List EventTimeSlot) :
    (innerTraceAt opts a i j rest).Pairwise (fun s t => s.2.1 < t.2.1) := by
  induction rest generalizing j with
  | nil => simp [innerTraceAt]
  | cons b rest ih =>
    have hcons : ∀ c : Conflict,
        ((i, j, c) :: innerTraceAt opts a i (j + 1) rest).Pairwise
          (fun s t => s.2.1 < t.2.1) := by
      intro c
      rw [List.pairwise_cons]
      refine ⟨fun t ht => ?_, ih (j + 1)⟩
      have := (mem_innerTraceAt ht).2.1
      simp only
      omega
    simp only [innerTraceAt]
    split_ifs
    · exact List.Pairwise.nil
    · exact hcons _
    · exact hcons _
    · exact ih (j + 1)
    · exact ih (j + 1)

theorem mem_outerTraceAt {opts : Options} {i : Nat} {l : List EventTimeSlot}
    {t : Nat × Nat × Conflict} (h : t ∈ outerTraceAt opts i l) :
    i ≤ t.1 ∧ t.1 < t.2.1 ∧
      ∃ a b, l[t.1 - i]? = some a ∧ l[t.2.1 - i]? = some b ∧
        pairResult opts a b = some t.2.2 := by
  induction l generalizing i with
  | nil => simp [outerTraceAt] at h
  | cons a rest ih =>
    simp only [outerTraceAt, List.mem_append] at h
    rcases h with h | h
    · obtain ⟨h1, h2, b, h3, h4⟩ := mem_innerTraceAt h
      refine ⟨by omega, by omega, a, b, ?_, ?_, h4⟩
      · rw [h1]
        simp
      · have : t.2.1 - i = (t.2.1 - (i + 1)) + 1 := by omega
        rw [this, List.getElem?_cons_succ]
        exact h3
    · obtain ⟨h1, h2, x, y, h3, h4, h5⟩ := ih h
      refine ⟨by omega, h2, x, y, ?_, ?_, h5⟩
      · have : t.1 - i = (t.1 - (i + 1)) + 1 := by omega
        rw [this, List.getElem?_cons_succ]
        exact h3
      · have : t.2.1 - i = (t.2.1 - (i + 1)) + 1 := by omega
        rw [this, List.getElem?_cons_succ]
        exact h4

theorem outerTraceAt_increasing (opts : Options) (i : Nat) (l : List EventTimeSlot) :
    (outerTraceAt opts i l).Pairwise
      (fun s t => s.1 < t.1 ∨ (s.1 = t.1 ∧ s.2.1 < t.2.1)) := by
  induction l generalizing i with
  | nil => simp [outerTraceAt]
  | cons a rest ih =>
    simp only [outerTraceAt]
    rw [List.pairwise_append]
    refine ⟨?_, ih (i + 1), ?_⟩
    · refine (innerTraceAt_increasing opts a i (i + 1) rest).imp_of_mem ?_
      intro s t hs ht hlt
      exact Or.inr ⟨(mem_innerTraceAt hs).1.trans (mem_innerTraceAt ht).1.symm, hlt⟩
    · intro s hs t ht
      have h1 := (mem_innerTraceAt hs).1
      have h2 := (mem_outerTraceAt ht).1
      left
      omega

/-- Claim C24: for every slot list and bufferMinutes, the conflict list of `Detect` is the
list of records of the emissions taken with their sorted positions `(i, j)`, `i < j`; in it,
the record for positions `(i, j)` precedes the record for `(i', j')` only if `i < i'`, or
`i = i'` and `j < j'`; and the event IDs of each record are the ID of the slot at sorted
position `i` followed by the ID of the slot at sorted position `j`. -/
theorem C24_discovery_order (srt : SliceSort) (slots : List EventTimeSlot) (opts : Options) :
    (detectTraceAt srt slots opts).map (fun t => t.2.2) = (Detect srt slots opts).Conflicts ∧
      (detectTraceAt srt slots opts).Pairwise
        (fun s t => s.1 < t.1 ∨ (s.1 = t.1 ∧ s.2.1 < t.2.1)) ∧
      ∀ t ∈ detectTraceAt srt slots opts, t.1 < t.2.1 ∧
        ∃ a b, (srt.run slots)[t.1]? = some a ∧ (srt.run slots)[t.2.1]? = some b ∧
          t.2.2.EventIDs = [a.ID, b.ID] := by
  refine ⟨?_, ?_, ?_⟩
  · rw [Detect_Conflicts]
    unfold detectTraceAt detectTrace
    split_ifs
    · rfl
    · exact outerTraceAt_records opts 0 _
  · unfold detectTraceAt
    split_ifs
    · exact List.Pairwise.nil
    · exact outerTraceAt_increasing opts 0 _
  · intro t ht
    unfold detectTraceAt at ht
    split_ifs at ht
    · simp at ht
    · obtain ⟨_, h2, a, b, h3, h4, h5⟩ := mem_outerTraceAt ht
      exact ⟨h2, a, b, by simpa using h3, by simpa using h4, pairResult_ids h5⟩

/-! ## Growing the buffer -/

theorem bufferDuration_of_fits (b : Int) (h0 : 0 ≤ b) (hno : b * Minute ≤ maxInt64) :
    bufferDuration ⟨b⟩ = b * Minute := by
  unfold bufferDuration wrapInt64
  unfold Minute maxInt64 at *
  simp only
  omega

theorem length_of_mem_detectTrace {srt : SliceSort} {slots : List EventTimeSlot}
    {opts : Options} {e : Emission} (he : e ∈ detectTrace srt slots opts) :
    ¬ slots.length < 2 := by
  intro h
  simp [detectTrace, h] at he

/-- An emission of type "overlap" is emitted, unchanged, under any other buffer whose
duration is not negative. -/
theorem overlap_emission_transfer {srt : SliceSort} {slots : List EventTimeSlot}
    {opts opts' : Options} (hd : 0 ≤ bufferDuration opts') {e : Emission}
    (he : e ∈ detectTrace srt slots opts) (ht : e.record.Type_ = "overlap") :
    e ∈ detectTrace srt slots opts' := by
  obtain ⟨hs, _, _, hp⟩ := mem_detectTrace he
  have ho := pairResult_overlap hp ht
  obtain ⟨_, ⟨_, hc⟩ | ⟨_, _, _, hc⟩⟩ := pairResult_cases hp
  · have := overlap_emitted hd (length_of_mem_detectTrace he) hs ho
    rw [← hc] at this
    exact this
  · rw [hc] at ht
    simp [bufferConflict] at ht

/-- Claim C28, as amended: for every slot list and every 0 ≤ b1 ≤ b2 with b2 minutes within
the range of `time.Duration` (b2 ≤ 153722867), the records of type "overlap" of `Detect`
with bufferMinutes = b1 and with bufferMinutes = b2 are the same records (same IDs, same
overlapMinutes), and every record of type "insufficient_buffer" at b1 has a record of type
"insufficient_buffer" at b2 with the same event IDs and the same gapMinutes. -/
theorem C28_monotone_in_buffer (srt : SliceSort) (slots : List EventTimeSlot) (b1 b2 : Int)
    (h0 : 0 ≤ b1) (h12 : b1 ≤ b2) (hno : b2 * Minute ≤ maxInt64) :
    (∀ c : Conflict, c.Type_ = "overlap" →
      (c ∈ (Detect srt slots ⟨b1⟩).Conflicts ↔ c ∈ (Detect srt slots ⟨b2⟩).Conflicts)) ∧
    (∀ c ∈ (Detect srt slots ⟨b1⟩).Conflicts, c.Type_ = "insufficient_buffer" →
      ∃ d ∈ (Detect srt slots ⟨b2⟩).Conflicts, d.Type_ = "insufficient_buffer" ∧
        d.EventIDs = c.EventIDs ∧ d.GapMinutes = c.GapMinutes) := by
  have hno1 : b1 * Minute ≤ maxInt64 := by
    unfold Minute maxInt64 at *
    omega
  have hd1 := bufferDuration_of_fits b1 h0 hno1
  have hd2 := bufferDuration_of_fits b2 (le_trans h0 h12) hno
  have hp1 : 0 ≤ bufferDuration ⟨b1⟩ := by rw [hd1]; unfold Minute; omega
  have hp2 : 0 ≤ bufferDuration ⟨b2⟩ := by rw [hd2]; unfold Minute; omega
  constructor
  · intro c ht
    constructor
    · intro hc
      obtain ⟨e, he, rfl⟩ := mem_Detect_Conflicts.1 hc
      exact mem_Detect_Conflicts.2 ⟨e, overlap_emission_transfer hp2 he ht, rfl⟩
    · intro hc
      obtain ⟨e, he, rfl⟩ := mem_Detect_Conflicts.1 hc
      exact mem_Detect_Conflicts.2 ⟨e, overlap_emission_transfer hp1 he ht, rfl⟩
  · intro c hc ht
    obtain ⟨e, he, rfl⟩ := mem_Detect_Conflicts.1 hc
    obtain ⟨hs, _, _, hp⟩ := mem_detectTrace he
    obtain ⟨hov, hb, hg0, hg1⟩ := pairResult_buffer hp ht
    obtain ⟨_, ⟨_, hcc⟩ | ⟨_, _, _, hcc⟩⟩ := pairResult_cases hp
    · rw [hcc] at ht
      simp [overlapConflict] at ht
    · have hb2 : (0 : Int) < b2 := lt_of_lt_of_le hb h12
      have hlt : Time.Sub e.second.Start e.first.End < bufferDuration ⟨b2⟩ := by
        rw [hd1] at hg1
        rw [hd2]
        unfold Minute at *
        omega
      have hnb : ¬ (e.second.Start > Time.Add e.first.End (bufferDuration ⟨b2⟩) ∨
          e.second.Start = Time.Add e.first.End (bufferDuration ⟨b2⟩)) := by
        have hw : bufferDuration (⟨b2⟩ : Options) ≤ maxInt64 := by rw [hd2]; exact hno
        unfold Time.Sub at hlt hg0
        unfold Time.Add
        unfold maxInt64 minInt64 at *
        split_ifs at hlt hg0 <;> omega
      have hp2' : pairResult ⟨b2⟩ e.first e.second =
          some (bufferConflict ⟨b2⟩ e.first e.second) := by
        simp [pairResult, hnb, hov, hb2, hg0, hlt]
      refine ⟨bufferConflict ⟨b2⟩ e.first e.second, ?_, rfl, ?_, ?_⟩
      · exact mem_Detect_Conflicts.2
          ⟨⟨e.first, e.second, bufferConflict ⟨b2⟩ e.first e.second⟩,
            detectTrace_complete (length_of_mem_detectTrace he) hs hp2', rfl⟩
      · rw [hcc]
        rfl
      · rw [hcc]
        rfl

/-- Witness of C28 on three slots with buffers 5 and 15. -/
theorem C28_monotone_in_buffer_witness :
    (∀ c : Conflict, c.Type_ = "overlap" →
      (c ∈ (Detect insertionSliceSort [slotB1000, slotA, slotB0930] ⟨5⟩).Conflicts ↔
        c ∈ (Detect insertionSliceSort [slotB1000, slotA, slotB0930] ⟨15⟩).Conflicts)) ∧
    (∀ c ∈ (Detect insertionSliceSort [slotB1000, slotA, slotB0930] ⟨5⟩).Conflicts,
      c.Type_ = "insufficient_buffer" →
      ∃ d ∈ (Detect insertionSliceSort [slotB1000, slotA, slotB0930] ⟨15⟩).Conflicts,
        d.Type_ = "insufficient_buffer" ∧ d.EventIDs = c.EventIDs ∧
          d.GapMinutes = c.GapMinutes) :=
  C28_monotone_in_buffer insertionSliceSort [slotB1000, slotA, slotB0930] 5 15 (by decide)
    (by decide) (by decide)

/-- Counterexample to C28 as stated: for b1 = 0 ≤ b2 = 153722868 and the overlapping slots
09:00–10:00 and 09:30–10:30 (distinct IDs), the overlap record returned with bufferMinutes =
b1 is not returned with bufferMinutes = b2, whose buffer duration wraps to a negative value. -/
theorem C28_overlap_lost_at_larger_buffer :
    ((0 : Int) ≤ 0 ∧ (0 : Int) ≤ 153722868) ∧
      ([slotA, slotB0930].map EventTimeSlot.ID).Nodup ∧
      (Detect insertionSliceSort [slotA, slotB0930] ⟨0⟩).Conflicts =
        [⟨"overlap", ["A", "B"], 30, 0, 0⟩] ∧
      (Detect insertionSliceSort [slotA, slotB0930] ⟨153722868⟩).Conflicts = [] := by
  decide

/-! ## Sizes of the adjacency lists -/

/-- The partners that one emission appends to the adjacency list under `a`. -/
theorem addToConflictMap_get_eq (m : ConflictMap) (x y a : String) :
    (addToConflictMap m x y).get a =
      m.get a ++ ((if x = a then [y] else []) ++ (if y = a then [x] else [])) := by
  unfold addToConflictMap ConflictMap.get ConflictMap.set
  by_cases hay : a = y <;> by_cases hax : a = x <;> by_cases hxy : y = x <;>
    simp_all
  all_goals
    first
      | exact fun h => hxy h.symm
      | exact fun h => hax h.symm
      | exact ⟨fun h => hax h.symm, fun h => hay h.symm⟩

theorem replay_get_eq (es : List Emission) (r : Result) (a : String) :
    (replay es r).ConflictMap.get a =
      r.ConflictMap.get a ++ es.flatMap (fun e =>
        (if e.first.ID = a then [e.second.ID] else []) ++
          (if e.second.ID = a then [e.first.ID] else [])) := by
  induction es generalizing r with
  | nil => simp [replay]
  | cons e es ih =>
    have := ih (r.emit e.record e.first e.second)
    simp only [replay, List.foldl_cons] at this ⊢
    rw [this]
    simp [Result.emit, addToConflictMap_get_eq]

theorem replay_nonempty (es : List Emission) (r : Result)
    (h : ∀ a l, r.ConflictMap a = some l → l ≠ []) :
    ∀ a l, (replay es r).ConflictMap a = some l → l ≠ [] := by
  induction es generalizing r with
  | nil => simpa [replay] using h
  | cons e es ih =>
    have hstep : ∀ a l, (r.emit e.record e.first e.second).ConflictMap a = some l → l ≠ [] := by
      intro a l hl
      simp only [Result.emit, addToConflictMap, ConflictMap.set] at hl
      split_ifs at hl with h1 h2
      · simp at hl
        rw [← hl]
        simp
      · simp at hl
        rw [← hl]
        simp
      · exact h a l hl
    have := ih (r.emit e.record e.first e.second) hstep
    simpa [replay] using this

theorem indicator_sum (K : List String) (x : String) (hK : K.Nodup) (hx : x ∈ K) :
    (K.map (fun k => if x = k then 1 else 0)).sum = 1 := by
  induction K with
  | nil => simp at hx
  | cons k K ih =>
    rw [List.nodup_cons] at hK
    rcases List.mem_cons.1 hx with rfl | hx'
    · have hz : (K.map (fun k => if x = k then 1 else 0)).sum = 0 := by
        apply List.sum_eq_zero
        intro n hn
        obtain ⟨k, hk, rfl⟩ := List.mem_map.1 hn
        have : x ≠ k := fun h => hK.1 (h ▸ hk)
        simp [this]
      simp [hz]
    · have : x ≠ k := fun h => hK.1 (h ▸ hx')
      simp [this, ih hK.2 hx']

theorem addToConflictMap_total (m : ConflictMap) (x y : String) (K : List String)
    (hK : K.Nodup) (hx : x ∈ K) (hy : y ∈ K) :
    (K.map (fun k => ((addToConflictMap m x y).get k).length)).sum =
      (K.map (fun k => (m.get k).length)).sum + 2 := by
  have h : ∀ k, ((addToConflictMap m x y).get k).length =
      (m.get k).length + ((if x = k then 1 else 0) + (if y = k then 1 else 0)) := by
    intro k
    rw [addToConflictMap_get_eq]
    simp only [List.length_append]
    split_ifs <;> simp
  simp only [h]
  rw [List.sum_map_add, List.sum_map_add, indicator_sum K x hK hx, indicator_sum K y hK hy]

theorem replay_total (es : List Emission) (r : Result) (K : List String) (hK : K.Nodup)
    (hes : ∀ e ∈ es, e.first.ID ∈ K ∧ e.second.ID ∈ K) :
    (K.map (fun k => ((replay es r).ConflictMap.get k).length)).sum =
      (K.map (fun k => (r.ConflictMap.get k).length)).sum + 2 * es.length := by
  induction es generalizing r with
  | nil => simp [replay]
  | cons e es ih =>
    have h1 := ih (r.emit e.record e.first e.second)
      (fun f hf => hes f (List.mem_cons_of_mem _ hf))
    have h2 := hes e (List.mem_cons_self _ _)
    simp only [replay, List.foldl_cons] at h1 ⊢
    rw [h1]
    simp only [Result.emit]
    rw [addToConflictMap_total _ _ _ K hK h2.1 h2.2]
    simp only [List.length_cons]
    omega

/-- Claim C29: for every slot list with pairwise distinct IDs and every bufferMinutes, no
adjacency list in the result of `Detect` contains the same ID twice, every key of the
adjacency map has a non-empty list, every key is the ID of an input slot, and the total
length of the adjacency lists (summed over the IDs of the slots) is exactly twice the number
of conflict records. -/
theorem C29_adjacency_sizes (srt : SliceSort) (slots : List EventTimeSlot) (opts : Options)
    (hid : (slots.map EventTimeSlot.ID).Nodup) :
    (∀ a : String, ((Detect srt slots opts).ConflictMap.get a).Nodup) ∧
      (∀ (a : String) (l : List String), (Detect srt slots opts).ConflictMap a = some l →
        l ≠ []) ∧
      (∀ a : String, (Detect srt slots opts).ConflictMap a ≠ none →
        a ∈ slots.map EventTimeSlot.ID) ∧
      (slots.map (fun s => ((Detect srt slots opts).ConflictMap.get s.ID).length)).sum =
        2 * (Detect srt slots opts).Conflicts.length := by
  refine ⟨?_, ?_, ?_, ?_⟩
  · intro a
    rw [Detect_ConflictMap, replay_get_eq]
    simp only [ConflictMap.get, Option.getD_none, List.nil_append]
    rw [List.nodup_flatMap]
    constructor
    · intro e he
      have hne := emission_ids_ne hid he
      split_ifs with h1 h2 h2
      · exact absurd (h1.trans h2.symm) hne
      · simp
      · simp
      · simp
    · refine (detectTrace_pairwise srt opts hid).imp_of_mem ?_
      intro e f he hf hef
      have hne := emission_ids_ne hid he
      have hnf := emission_ids_ne hid hf
      intro z hz1 hz2
      apply hef
      simp only [List.mem_append, List.mem_ite_nil_right, List.mem_singleton] at hz1 hz2
      rcases hz1 with ⟨h1, rfl⟩ | ⟨h1, rfl⟩ <;> rcases hz2 with ⟨h2, h3⟩ | ⟨h2, h3⟩
      · exact Or.inl ⟨h1.trans h2.symm, h3⟩
      · exact Or.inr ⟨h1.trans h2.symm, h3⟩
      · exact Or.inr ⟨h3, h1.trans h2.symm⟩
      · exact Or.inl ⟨h3, h1.trans h2.symm⟩
  · rw [Detect_ConflictMap]
    exact replay_nonempty _ _ (fun a l h => by simp at h)
  · intro a ha
    rw [← Option.isSome_iff_ne_none, Detect_isSome] at ha
    obtain ⟨e, he, h⟩ := ha
    obtain ⟨_, h1, h2, _⟩ := mem_detectTrace he
    rcases h with rfl | rfl
    · exact List.mem_map_of_mem _ h1
    · exact List.mem_map_of_mem _ h2
  · have hes : ∀ e ∈ detectTrace srt slots opts,
        e.first.ID ∈ slots.map EventTimeSlot.ID ∧ e.second.ID ∈ slots.map EventTimeSlot.ID := by
      intro e he
      obtain ⟨_, h1, h2, _⟩ := mem_detectTrace he
      exact ⟨List.mem_map_of_mem _ h1, List.mem_map_of_mem _ h2⟩
    have := replay_total (detectTrace srt slots opts) ⟨fun _ => none, [], false⟩
      (slots.map EventTimeSlot.ID) hid hes
    rw [List.map_map] at this
    rw [Detect_ConflictMap, Detect_Conflicts, List.length_map]
    simp only [Function.comp_def] at this
    rw [this]
    have hz : (List.map (fun k => (ConflictMap.get (fun _ => none) k).length)
        (List.map EventTimeSlot.ID slots)).sum = 0 := by
      apply List.sum_eq_zero
      intro n hn
      obtain ⟨_, _, rfl⟩ := List.mem_map.1 hn
      rfl
    rw [hz]
    omega

/-- Witness of C29 on three slots with buffer 15: 09:00–10:00 overlaps the zero-length slot
at 09:30 and touches 10:00–11:00. -/
theorem C29_adjacency_sizes_witness :
    (∀ a : String, ((Detect insertionSliceSort [slotB1000, slotA, slotInstant]
        ⟨15⟩).ConflictMap.get a).Nodup) ∧
      (∀ (a : String) (l : List String),
        (Detect insertionSliceSort [slotB1000, slotA, slotInstant] ⟨15⟩).ConflictMap a =
          some l → l ≠ []) ∧
      (∀ a : String,
        (Detect insertionSliceSort [slotB1000, slotA, slotInstant] ⟨15⟩).ConflictMap a ≠ none →
          a ∈ [slotB1000, slotA, slotInstant].map EventTimeSlot.ID) ∧
      ([slotB1000, slotA, slotInstant].map (fun s =>
          ((Detect insertionSliceSort [slotB1000, slotA, slotInstant]
            ⟨15⟩).ConflictMap.get s.ID).length)).sum =
        2 * (Detect insertionSliceSort [slotB1000, slotA, slotInstant] ⟨15⟩).Conflicts.length :=
  C29_adjacency_sizes insertionSliceSort [slotB1000, slotA, slotInstant] ⟨15⟩ (by decide)

/-! ## The sort step -/

theorem slotLE_iff (x y : EventTimeSlot) :
    ¬ slotLess y x ↔ (x.Start < y.Start ∨ (x.Start = y.Start ∧ x.End ≤ y.End)) := by
  unfold slotLess
  split_ifs <;> omega

/-- Two sorted arrangements of the same slots carry the same sequence of (start, end). -/
theorem sorted_times_unique (srt srt' : SliceSort) (slots : List EventTimeSlot) :
    (srt.run slots).map (fun s => (s.Start, s.End)) =
      (srt'.run slots).map (fun s => (s.Start, s.End)) := by
  have hsorted : ∀ s : SliceSort,
      ((s.run slots).map (fun t => toLex (t.Start, t.End))).Sorted (· ≤ ·) := by
    intro s
    unfold List.Sorted
    rw [List.pairwise_map]
    refine (s.sorted slots).imp ?_
    intro x y hxy
    rw [Prod.Lex.le_iff]
    exact (slotLE_iff x y).1 hxy
  have hperm : ((srt.run slots).map (fun t => toLex (t.Start, t.End))).Perm
      ((srt'.run slots).map (fun t => toLex (t.Start, t.End))) :=
    (((srt.perm slots).trans (srt'.perm slots).symm).map _)
  have heq := List.eq_of_perm_of_sorted hperm (hsorted srt) (hsorted srt')
  have := congrArg (List.map (fun p : ℤ ×ₗ ℤ => ofLex p)) heq
  simpa [List.map_map, Function.comp_def] using this

/-- Claim C23, as amended: the sort step rearranges the slots (a permutation of the input)
in ascending order of start, ties broken by end ascending, so that the sequence of (start,
end) after sorting is determined by the input; it is not stable: the order among slots whose
start and end are both equal is whatever `sort.Slice` leaves, and two runs that differ there
still return the same conflicts up to the order of the two IDs in a record (for pairwise
distinct IDs). -/
theorem C23_sort_step (srt srt' : SliceSort) (slots : List EventTimeSlot) (opts : Options) :
    (srt.run slots).Perm slots ∧
      (srt.run slots).Pairwise
        (fun x y => x.Start < y.Start ∨ (x.Start = y.Start ∧ x.End ≤ y.End)) ∧
      (srt.run slots).map (fun s => (s.Start, s.End)) =
        (srt'.run slots).map (fun s => (s.Start, s.End)) ∧
      ((slots.map EventTimeSlot.ID).Nodup →
        ∀ c ∈ (Detect srt slots opts).Conflicts,
          ∃ d ∈ (Detect srt' slots opts).Conflicts, c.sameUpToOrder d) := by
  refine ⟨srt.perm slots, (srt.sorted slots).imp (fun h => (slotLE_iff _ _).1 h),
    sorted_times_unique srt srt' slots, ?_⟩
  intro hid c hc
  obtain ⟨e, he, rfl⟩ := mem_Detect_Conflicts.1 hc
  obtain ⟨f, hf, hsame, _⟩ := emission_transfer (List.Perm.refl slots) hid he
  exact ⟨f.record, mem_Detect_Conflicts.2 ⟨f, hf, rfl⟩, hsame⟩

set_option maxRecDepth 100000 in
/-- Counterexample to C23 as stated: `reverseTieSort` meets the contract of `sort.Slice` (a
permutation, sorted by start then end). On thirteen slots of which the first two, `s0` and
`s1`, have the same start and end, it leaves `s1` before `s0`, and the record of `Detect`
for the two lists `s1` first, whereas a stable sort leaves `s0` before `s1` and gives the
record `s0` first. -/
theorem C23_ties_reordered :
    ((hourSlot "s0" 1).Start = (hourSlot "s1" 1).Start ∧
      (hourSlot "s0" 1).End = (hourSlot "s1" 1).End) ∧
    (reverseTieSort.run tiedSlots).map EventTimeSlot.ID =
      ["s12", "s1", "s0", "s6", "s11", "s10", "s9", "s8", "s7", "s5", "s4", "s3", "s2"] ∧
    (insertionSliceSort.run tiedSlots).map EventTimeSlot.ID =
      ["s12", "s0", "s1", "s6", "s2", "s3", "s4", "s5", "s7", "s8", "s9", "s10", "s11"] ∧
    ((Detect reverseTieSort tiedSlots ⟨0⟩).Conflicts.map Conflict.EventIDs).head? =
      some ["s1", "s0"] ∧
    ((Detect insertionSliceSort tiedSlots ⟨0⟩).Conflicts.map Conflict.EventIDs).head? =
      some ["s0", "s1"] := by
  decide

/-! ## Bounds on overlapMinutes -/

theorem Duration_Minutes_nonneg (d : Int) (h : 0 ≤ d) : 0 ≤ Duration.Minutes d := by
  unfold Duration.Minutes
  split_ifs <;> omega

/-- For slots with start ≤ end, the overlapMinutes of an emitted overlap record is at least
0; when the intersection is shorter than 2^18 = 262144 minutes or a whole number of seconds
within the range of `time.Duration`, it is at most the whole minutes of the duration of either
slot. -/
theorem overlap_minutes_bounds (srt : SliceSort) (slots : List EventTimeSlot) (opts : Options)
    (hinv : ∀ s ∈ slots, s.Start ≤ s.End) :
    ∀ e ∈ detectTrace srt slots opts, e.record.Type_ = "overlap" →
      0 ≤ e.record.OverlapMinutes ∧
        ((intersection e.first e.second < 262144 * Minute ∨
            (intersection e.first e.second % 1000000000 = 0 ∧
              intersection e.first e.second ≤ maxInt64)) →
          e.record.OverlapMinutes ≤ (e.first.End - e.first.Start).tdiv Minute ∧
            e.record.OverlapMinutes ≤ (e.second.End - e.second.Start).tdiv Minute) := by
  intro e he ht
  obtain ⟨_, h1, h2, hp⟩ := mem_detectTrace he
  have ho := pairResult_overlap hp ht
  have ha := hinv _ h1
  have hb := hinv _ h2
  have hD := (overlap_intersection ha hb ho).1
  have hDa : intersection e.first e.second ≤ e.first.End - e.first.Start ∧
      intersection e.first e.second ≤ e.second.End - e.second.Start := by
    unfold intersection
    rw [min_def, max_def]
    split_ifs <;> constructor <;> omega
  obtain ⟨_, ⟨_, hc⟩ | ⟨_, _, _, hc⟩⟩ := pairResult_cases hp
  · constructor
    · rw [hc]
      simp only [overlapConflict]
      apply Duration_Minutes_nonneg
      have hmin : (if e.second.End < e.first.End then e.second.End else e.first.End) =
          min e.first.End e.second.End := by
        rw [min_def]
        split_ifs <;> omega
      have hmax : (if e.second.Start > e.first.Start then e.second.Start else e.first.Start) =
          max e.first.Start e.second.Start := by
        rw [max_def]
        split_ifs <;> omega
      rw [hmin, hmax]
      unfold intersection at hD
      unfold Time.Sub
      unfold maxInt64 minInt64
      split_ifs <;> omega
    · intro hcond
      have heq : e.record.OverlapMinutes = (intersection e.first e.second).tdiv Minute := by
        rw [hc]
        apply overlapConflict_minutes
        unfold Minute minInt64 maxInt64 at *
        rcases hcond with h | h
        · left
          omega
        · right
          omega
      rw [heq, Int.tdiv_eq_ediv hD (by unfold Minute; norm_num),
        Int.tdiv_eq_ediv (by omega) (by unfold Minute; norm_num),
        Int.tdiv_eq_ediv (by omega) (by unfold Minute; norm_num)]
      unfold Minute
      constructor <;> omega
  · rw [hc] at ht
    simp [bufferConflict] at ht

set_option maxRecDepth 100000 in
/-- Claim C30 at a failing input: the slot `B` from 1 ns to minute 262145 lies inside the slot
`A` from 0 to minute 262146 (both have start ≤ end); `Detect` reports their overlap with
overlapMinutes = 262145, although `B` lasts 262144 minutes and 59.999999999 seconds, that is
262144 whole minutes. -/
theorem C30_overlap_minutes_exceed_duration :
    (∀ s ∈ [slotOuterA, slotInnerB], s.Start ≤ s.End) ∧
      (Detect insertionSliceSort [slotOuterA, slotInnerB] ⟨0⟩).Conflicts =
        [⟨"overlap", ["A", "B"], 262145, 0, 0⟩] ∧
      (slotInnerB.End - slotInnerB.Start).tdiv Minute = 262144 := by
  decide

end Conflicts
